import Mathlib

/-!
# Course Registration Portal: the selection and validation logic of `src/src.jsx`

A shallow embedding of the React component `CourseRegistrationApp`: the fixed course
`CATALOG`, the selection state `selectedCodes` with its handlers (`toggleCourse`,
`saveDraft`, `clearDraft`, `exportSelection`, `submitSelection`), the mount-time draft
load, the `visible` catalog filter and the "Selected" list of the render.

JavaScript strings are sequences of UTF-16 code units; they are embedded as lists of
natural numbers (every code unit is below `65536`).  `js` turns a Lean string literal
into that representation.

The component calls three built-ins of the language: `JSON.parse`, `JSON.stringify` and
`String.prototype.toLowerCase`.  The first two are embedded after ECMA-262 and ECMA-404;
what is left open (the text of a serialised number or object, lower-casing outside
ASCII) is a field of `Host`.
-/

namespace CourseReg

/-! ## JavaScript strings -/

/-- A JavaScript string: its sequence of UTF-16 code units. -/
abbrev JSString := List Nat

/-- UTF-16 code units of one Unicode scalar value. -/
def utf16 (n : Nat) : List Nat :=
  if n < 65536 then [n]
  else [55296 + (n - 65536) / 1024, 56320 + (n - 65536) % 1024]

/-- The JavaScript string written as the literal `s`. -/
def js (s : String) : JSString :=
  s.toList.flatMap (fun c => utf16 c.toNat)

/-- Decimal digits of a natural number, least significant digit last; `fuel` bounds the
number of digits produced. -/
def decimalDigits : Nat → Nat → List Nat
  | 0, _ => []
  | fuel + 1, n =>
    if n < 10 then [48 + n] else decimalDigits fuel (n / 10) ++ [48 + n % 10]

/-- The text a template literal `${n}` produces for a non-negative integer `n`
(`Number::toString` in radix 10). -/
def numberToString (n : Nat) : JSString :=
  decimalDigits (n + 1) n

/-! ## The catalog -/

/-- A course record of the catalog: `{ code, title, credits, domain }`. -/
structure Course where
  code : JSString
  title : JSString
  credits : Nat
  domain : JSString
  deriving DecidableEq, Repr

/-- The constant `MIN_CREDITS`. -/
def MIN_CREDITS : Nat := 16

/-- The constant `MAX_CREDITS`. -/
def MAX_CREDITS : Nat := 27

/-- The constant `LOCALSTORE_KEY`. -/
def LOCALSTORE_KEY : JSString := js "course_reg_draft_v1"

/-- The constant `CATALOG`, in source order. -/
def CATALOG : List Course := [
  -- Core / Foundation
  { code := js "CS101", title := js "Programming I: C/C++", credits := 3, domain := js "Core" },
  { code := js "CS102", title := js "Data Structures", credits := 4, domain := js "Core" },
  { code := js "CS103", title := js "Discrete Mathematics", credits := 3, domain := js "Core" },
  { code := js "CS104", title := js "Digital Logic & Comp Org", credits := 3, domain := js "Core" },
  { code := js "CS105", title := js "Algorithms", credits := 4, domain := js "Core" },
  { code := js "CS106", title := js "Operating Systems", credits := 4, domain := js "Core" },
  { code := js "CS107", title := js "Computer Networks", credits := 3, domain := js "Core" },
  { code := js "CS108", title := js "Database Systems", credits := 4, domain := js "Core" },
  -- Software Engineering & Dev
  { code := js "SE201", title := js "Software Engineering", credits := 3, domain := js "SE" },
  { code := js "SE202", title := js "Web Technologies", credits := 3, domain := js "SE" },
  { code := js "SE203", title := js "Mobile App Development", credits := 2, domain := js "SE" },
  { code := js "SE204", title := js "DevOps & CI/CD", credits := 2, domain := js "SE" },
  -- Theory / Maths / Tools
  { code := js "TM301", title := js "Theory of Computation", credits := 3, domain := js "Theory" },
  { code := js "TM302", title := js "Linear Algebra & Numerical Methods", credits := 3,
    domain := js "Theory" },
  { code := js "TM303", title := js "Probability & Statistics", credits := 3,
    domain := js "Theory" },
  -- Systems & Security
  { code := js "SYS401", title := js "Distributed Systems", credits := 3, domain := js "Systems" },
  { code := js "SYS402", title := js "Cloud Computing", credits := 3, domain := js "Systems" },
  { code := js "SEC403", title := js "Cybersecurity Fundamentals", credits := 3,
    domain := js "Security" },
  { code := js "SEC404", title := js "Cryptography", credits := 3, domain := js "Security" },
  -- AI / ML / Data
  { code := js "AI501", title := js "Introduction to AI", credits := 3, domain := js "AI" },
  { code := js "AI502", title := js "Machine Learning", credits := 4, domain := js "AI" },
  { code := js "AI503", title := js "Deep Learning", credits := 4, domain := js "AI" },
  { code := js "DS504", title := js "Data Mining", credits := 3, domain := js "Data" },
  { code := js "DS505", title := js "Big Data Technologies", credits := 3, domain := js "Data" },
  -- HCI / Multimedia / Electives
  { code := js "HM601", title := js "Human-Computer Interaction", credits := 2,
    domain := js "HCI" },
  { code := js "HM602", title := js "Computer Graphics", credits := 3, domain := js "HCI" },
  { code := js "HM603", title := js "Image Processing", credits := 3, domain := js "HCI" },
  { code := js "HM604", title := js "AR/VR Basics", credits := 2, domain := js "HCI" },
  -- Interdisciplinary / Small-credit
  { code := js "IS701", title := js "Ethics in Computing", credits := 1,
    domain := js "Interdisciplinary" },
  { code := js "IS702", title := js "Entrepreneurship & Startups", credits := 1,
    domain := js "Interdisciplinary" },
  { code := js "IS703", title := js "Technical Communication", credits := 1,
    domain := js "Interdisciplinary" },
  { code := js "IS704", title := js "Internship / Project Lab", credits := 4,
    domain := js "Interdisciplinary" }
]

/-! ## Values held by `selectedCodes`

`selectedCodes` starts as `[]`, grows by `toggleCourse` (strings) and is replaced by
whatever array `JSON.parse` returns at the mount-time draft load, so its elements are
JSON values. -/

/-- A value produced by `JSON.parse`.  A number is kept as the text of its literal: its
floating-point value is never inspected by the component.  An object is kept as the list
of its members as written. -/
inductive Value where
  | null
  | bool (b : Bool)
  | num (lexeme : JSString)
  | str (s : JSString)
  | arr (items : List Value)
  | obj (members : List (JSString × Value))

/-- Strict equality `v === code` of a value with the string `code`
(also `SameValueZero`, which `Array.prototype.includes` uses). -/
def Value.isString (code : JSString) : Value → Bool
  | .str s => s == code
  | _ => false

/-! ## Lookup, credit total, toggle -/

/-- The function `getCourse(code)`: `catalog.find(c => c.code === code)`; `none` is
`undefined`. -/
def getCourse (code : Value) : Option Course :=
  CATALOG.find? (fun c => code.isString c.code)

/-- The function `totalCredits()`:
`selectedCodes.reduce((sum, code) => sum + (c ? c.credits : 0), 0)` with
`c = getCourse(code)`. -/
def totalCredits (selectedCodes : List Value) : Nat :=
  selectedCodes.foldl
    (fun sum code =>
      sum + (match getCourse code with
        | some c => c.credits
        | none => 0))
    0

/-- The state update of `toggleCourse(code)` for a string `code`:
`prev.includes(code) ? prev.filter(c => c !== code) : [...prev, code]`. -/
def toggleCourse (code : JSString) (prev : List Value) : List Value :=
  if prev.any (Value.isString code) then prev.filter (fun c => !(c.isString code))
  else prev ++ [Value.str code]

/-- The selection after a sequence of `toggleCourse` calls, applied left to right. -/
def toggleAll (codes : List JSString) (start : List Value) : List Value :=
  codes.foldl (fun sel code => toggleCourse code sel) start

/-! ## JSON text: `JSON.parse`

The ECMAScript built-in `JSON.parse` (ECMA-262, 25.5.1) applied to a string, modelled
on code units after the JSON grammar of ECMA-404.  It is a recursive-descent parser; the
recursion through nested arrays and objects is bounded by a fuel argument, and
`JSON.parse` supplies enough fuel for every text (`JSON.parse_ne_outOfFuel` below). -/

/-- JSON whitespace: space, tab, line feed, carriage return. -/
def isWhitespace (u : Nat) : Bool :=
  u == 32 || u == 9 || u == 10 || u == 13

/-- The input after its leading whitespace. -/
def skipWhitespace : JSString → JSString
  | [] => []
  | u :: rest => if isWhitespace u then skipWhitespace rest else u :: rest

/-- A decimal digit `0`-`9`. -/
def isDigit (u : Nat) : Bool :=
  decide (48 ≤ u) && decide (u ≤ 57)

/-- Value of a hexadecimal digit (either case). -/
def hexValue (u : Nat) : Option Nat :=
  if 48 ≤ u ∧ u ≤ 57 then some (u - 48)
  else if 97 ≤ u ∧ u ≤ 102 then some (u - 87)
  else if 65 ≤ u ∧ u ≤ 70 then some (u - 55)
  else none

/-- The code unit a two-character escape stands for: the escapes quotation mark,
reverse solidus, solidus, b, f, n, r, t. -/
def unescape (e : Nat) : Option Nat :=
  if e = 34 then some 34
  else if e = 92 then some 92
  else if e = 47 then some 47
  else if e = 98 then some 8
  else if e = 102 then some 12
  else if e = 110 then some 10
  else if e = 114 then some 13
  else if e = 116 then some 9
  else none

/-- Characters of a JSON string after its opening quotation mark: the decoded string and
the input after the closing quotation mark. -/
def parseStringChars : JSString → Option (JSString × JSString)
  | [] => none
  | u :: rest =>
    if u = 34 then some ([], rest)
    else if u = 92 then
      match rest with
      | [] => none
      | e :: rest1 =>
        if e = 117 then
          match rest1 with
          | a :: b :: c :: d :: rest2 =>
            match hexValue a, hexValue b, hexValue c, hexValue d with
            | some x, some y, some z, some w =>
              match parseStringChars rest2 with
              | some (s, r) => some ((x * 4096 + y * 256 + z * 16 + w) :: s, r)
              | none => none
            | _, _, _, _ => none
          | _ => none
        else
          match unescape e with
          | some ch =>
            match parseStringChars rest1 with
            | some (s, r) => some (ch :: s, r)
            | none => none
          | none => none
    else if u < 32 then none
    else
      match parseStringChars rest with
      | some (s, r) => some (u :: s, r)
      | none => none

/-- A non-empty run of decimal digits. -/
def parseDigits (inp : JSString) : Option (JSString × JSString) :=
  match inp.span isDigit with
  | ([], _) => none
  | (ds, rest) => some (ds, rest)

/-- The integer part of a JSON number: `0`, or a digit `1`-`9` followed by digits. -/
def parseInt (inp : JSString) : Option (JSString × JSString) :=
  match inp with
  | [] => none
  | d :: rest =>
    if d = 48 then some ([48], rest)
    else if isDigit d then
      match rest.span isDigit with
      | (ds, rest1) => some (d :: ds, rest1)
    else none

/-- The optional fraction of a JSON number. -/
def parseFrac (inp : JSString) : Option (JSString × JSString) :=
  match inp with
  | 46 :: rest =>
    match parseDigits rest with
    | some (ds, rest1) => some (46 :: ds, rest1)
    | none => none
  | _ => some ([], inp)

/-- The optional exponent of a JSON number. -/
def parseExp (inp : JSString) : Option (JSString × JSString) :=
  match inp with
  | [] => some ([], inp)
  | e :: rest =>
    if e = 101 ∨ e = 69 then
      match rest with
      | [] => none
      | s :: rest1 =>
        if s = 43 ∨ s = 45 then
          match parseDigits rest1 with
          | some (ds, rest2) => some (e :: s :: ds, rest2)
          | none => none
        else
          match parseDigits rest with
          | some (ds, rest2) => some (e :: ds, rest2)
          | none => none
    else some ([], inp)

/-- The optional minus sign of a JSON number. -/
def parseSign (inp : JSString) : JSString × JSString :=
  match inp with
  | 45 :: rest => ([45], rest)
  | _ => ([], inp)

/-- A JSON number: its literal text and the input after it. -/
def parseNumber (inp : JSString) : Option (JSString × JSString) :=
  match parseInt (parseSign inp).2 with
  | none => none
  | some (i, r1) =>
    match parseFrac r1 with
    | none => none
    | some (f, r2) =>
      match parseExp r2 with
      | none => none
      | some (e, r3) => some ((parseSign inp).1 ++ i ++ f ++ e, r3)

/-- Input left after the keyword `word`, when the input starts with it. -/
def parseKeyword (word : JSString) (inp : JSString) : Option JSString :=
  if word.isPrefixOf inp then some (inp.drop word.length) else none

/-- Why parsing stopped without a value: the text is not JSON (`SyntaxError`), or the
fuel of the model ran out. -/
inductive ParseError where
  | syntaxError
  | outOfFuel
  deriving DecidableEq, Repr

mutual
/-- A JSON value at the head of the input (no leading whitespace). -/
def parseValue : Nat → JSString → Except ParseError (Value × JSString)
  | 0, _ => .error .outOfFuel
  | fuel + 1, inp =>
    match inp with
    | [] => .error .syntaxError
    | u :: rest =>
      if u = 34 then
        match parseStringChars rest with
        | some (s, r) => .ok (Value.str s, r)
        | none => .error .syntaxError
      else if u = 91 then
        match skipWhitespace rest with
        | 93 :: r => .ok (Value.arr [], r)
        | _ =>
          match parseElements fuel rest with
          | .ok (items, r) => .ok (Value.arr items, r)
          | .error e => .error e
      else if u = 123 then
        match skipWhitespace rest with
        | 125 :: r => .ok (Value.obj [], r)
        | _ =>
          match parseMembers fuel rest with
          | .ok (members, r) => .ok (Value.obj members, r)
          | .error e => .error e
      else if u = 116 then
        match parseKeyword (js "true") inp with
        | some r => .ok (Value.bool true, r)
        | none => .error .syntaxError
      else if u = 102 then
        match parseKeyword (js "false") inp with
        | some r => .ok (Value.bool false, r)
        | none => .error .syntaxError
      else if u = 110 then
        match parseKeyword (js "null") inp with
        | some r => .ok (Value.null, r)
        | none => .error .syntaxError
      else
        match parseNumber inp with
        | some (lexeme, r) => .ok (Value.num lexeme, r)
        | none => .error .syntaxError
/-- The elements of a non-empty array, up to and including the closing bracket. -/
def parseElements : Nat → JSString → Except ParseError (List Value × JSString)
  | 0, _ => .error .outOfFuel
  | fuel + 1, inp =>
    match parseValue fuel (skipWhitespace inp) with
    | .error e => .error e
    | .ok (v, rest) =>
      match skipWhitespace rest with
      | [] => .error .syntaxError
      | u :: rest1 =>
        if u = 93 then .ok ([v], rest1)
        else if u = 44 then
          match parseElements fuel rest1 with
          | .ok (vs, r) => .ok (v :: vs, r)
          | .error e => .error e
        else .error .syntaxError
/-- The members of a non-empty object, up to and including the closing brace. -/
def parseMembers : Nat → JSString → Except ParseError (List (JSString × Value) × JSString)
  | 0, _ => .error .outOfFuel
  | fuel + 1, inp =>
    match skipWhitespace inp with
    | [] => .error .syntaxError
    | q :: rest =>
      if q = 34 then
        match parseStringChars rest with
        | none => .error .syntaxError
        | some (key, rest1) =>
          match skipWhitespace rest1 with
          | [] => .error .syntaxError
          | colon :: rest2 =>
            if colon = 58 then
              match parseValue fuel (skipWhitespace rest2) with
              | .error e => .error e
              | .ok (v, rest3) =>
                match skipWhitespace rest3 with
                | [] => .error .syntaxError
                | u :: rest4 =>
                  if u = 125 then .ok ([(key, v)], rest4)
                  else if u = 44 then
                    match parseMembers fuel rest4 with
                    | .ok (ms, r) => .ok ((key, v) :: ms, r)
                    | .error e => .error e
                  else .error .syntaxError
            else .error .syntaxError
      else .error .syntaxError
end

/-- The built-in `JSON.parse(text)`: the value of the JSON text, or the reason it has
none (`SyntaxError` is what the caller can observe). -/
def JSON.parse (text : JSString) : Except ParseError Value :=
  match parseValue (2 * text.length + 1) (skipWhitespace text) with
  | .error e => .error e
  | .ok (v, rest) =>
    match skipWhitespace rest with
    | [] => .ok v
    | _ :: _ => .error .syntaxError

/-! ## JSON text: `JSON.stringify`

The built-in serialiser (ECMA-262, 25.5.2) without indentation.  Two parts of it are
left to the host: the text of a number (the shortest decimal of a double) and the text
of an object (own keys in property order). -/

/-- Parts of the JavaScript host that the component calls and that are not modelled
here in full. -/
structure Host where
  /-- The text `JSON.stringify` gives the number that the literal `lexeme` denotes. -/
  numberText : JSString → JSString
  /-- The text `JSON.stringify` gives the object parsed from these members. -/
  objectText : List (JSString × Value) → JSString
  /-- The result of `String.prototype.toLowerCase` on a string that has a code unit
  outside ASCII (Unicode default case conversion). -/
  unicodeLowerCase : JSString → JSString

/-- A leading (high) surrogate, `0xD800`-`0xDBFF`. -/
def isLeadSurrogate (u : Nat) : Bool :=
  decide (55296 ≤ u) && decide (u ≤ 56319)

/-- A trailing (low) surrogate, `0xDC00`-`0xDFFF`. -/
def isTrailSurrogate (u : Nat) : Bool :=
  decide (56320 ≤ u) && decide (u ≤ 57343)

/-- Lower-case hexadecimal digit of a value below 16. -/
def hexDigit (n : Nat) : Nat :=
  if n < 10 then 48 + n else 87 + n

/-- The operation `UnicodeEscape`: reverse solidus, `u`, four lower-case hex digits. -/
def unicodeEscape (u : Nat) : JSString :=
  [92, 117, hexDigit (u / 4096 % 16), hexDigit (u / 256 % 16), hexDigit (u / 16 % 16),
    hexDigit (u % 16)]

/-- The text `QuoteJSONString` emits for a code point that is a single code unit: the
two-character escapes of Table 75, a Unicode escape for other control characters and for
a surrogate that is not part of a pair, the code unit itself otherwise. -/
def quoteUnit (u : Nat) : JSString :=
  if u = 8 then [92, 98]
  else if u = 9 then [92, 116]
  else if u = 10 then [92, 110]
  else if u = 12 then [92, 102]
  else if u = 13 then [92, 114]
  else if u = 34 then [92, 34]
  else if u = 92 then [92, 92]
  else if u < 32 then unicodeEscape u
  else if isLeadSurrogate u || isTrailSurrogate u then unicodeEscape u
  else [u]

/-- The body of `QuoteJSONString`: the string is read as code points (a leading
surrogate followed by a trailing surrogate is one code point, emitted verbatim) and each
other code unit is emitted by `quoteUnit`. -/
def quoteChars : JSString → JSString
  | [] => []
  | [u] => quoteUnit u
  | u :: v :: rest =>
    if isLeadSurrogate u && isTrailSurrogate v then u :: v :: quoteChars rest
    else quoteUnit u ++ quoteChars (v :: rest)

/-- The operation `QuoteJSONString`. -/
def quote (s : JSString) : JSString :=
  34 :: (quoteChars s ++ [34])

mutual
/-- The built-in `JSON.stringify(value)` on a value that `JSON.parse` can produce. -/
def JSON.stringify (h : Host) : Value → JSString
  | .null => js "null"
  | .bool b => if b then js "true" else js "false"
  | .num lexeme => h.numberText lexeme
  | .str s => quote s
  | .arr items => 91 :: (JSON.stringifyItems h items ++ [93])
  | .obj members => h.objectText members
/-- The elements of an array, separated by commas. -/
def JSON.stringifyItems (h : Host) : List Value → JSString
  | [] => []
  | v :: rest =>
    JSON.stringify h v ++
      (match rest with
        | [] => []
        | _ :: _ => 44 :: JSON.stringifyItems h rest)
end

/-! ## Component state -/

/-- The browser `localStorage`: the string stored under each key, if any. -/
abbrev Storage := JSString → Option JSString

/-- The method `localStorage.getItem(key)`; `none` is `null`. -/
def Storage.getItem (store : Storage) (key : JSString) : Option JSString :=
  store key

/-- The method `localStorage.setItem(key, value)`. -/
def Storage.setItem (store : Storage) (key value : JSString) : Storage :=
  fun k => if k = key then some value else store k

/-- The method `localStorage.removeItem(key)`. -/
def Storage.removeItem (store : Storage) (key : JSString) : Storage :=
  fun k => if k = key then none else store k

/-- The object passed to `setMessage`. -/
structure Message where
  type : JSString
  text : JSString
  deriving DecidableEq, Repr

/-- The `useState` cells of `CourseRegistrationApp` together with `localStorage`. -/
structure AppState where
  selectedCodes : List Value
  filter : JSString
  search : JSString
  message : Option Message
  showModal : Bool
  modalText : JSString
  localStorage : Storage

/-- The state of the first render: the initial value of every `useState`. -/
def initialState (store : Storage) : AppState :=
  { selectedCodes := [], filter := js "All", search := [], message := none,
    showModal := false, modalText := [], localStorage := store }

/-! ## Draft: load on mount, save, clear -/

/-- The body of the mount effect on `selectedCodes`, given `raw = localStorage.getItem(key)`:
a missing or empty `raw` is skipped, a `SyntaxError` of `JSON.parse` is caught and ignored,
and a parsed value replaces the selection exactly when `Array.isArray` holds. -/
def loadDraft (raw : Option JSString) (selectedCodes : List Value) : List Value :=
  match raw with
  | none => selectedCodes
  | some text =>
    if text = [] then selectedCodes
    else
      match JSON.parse text with
      | .ok (Value.arr items) => items
      | _ => selectedCodes

/-- The mount effect `useEffect(() => ..., [])`. -/
def loadDraftOnMount (st : AppState) : AppState :=
  { st with selectedCodes := loadDraft (st.localStorage.getItem LOCALSTORE_KEY) st.selectedCodes }

/-- The handler `toggleCourse(code)` on the whole state. -/
def AppState.toggle (code : JSString) (st : AppState) : AppState :=
  { st with selectedCodes := toggleCourse code st.selectedCodes }

/-- The handler `saveDraft()`. -/
def saveDraft (h : Host) (st : AppState) : AppState :=
  { st with
    localStorage :=
      st.localStorage.setItem LOCALSTORE_KEY (JSON.stringify h (Value.arr st.selectedCodes))
    message := some { type := js "success", text := js "Draft saved to localStorage." } }

/-- The handler `clearDraft()`. -/
def clearDraft (st : AppState) : AppState :=
  { st with
    localStorage := st.localStorage.removeItem LOCALSTORE_KEY
    selectedCodes := []
    message := some { type := js "info", text := js "Draft cleared." } }

/-! ## Export -/

/-- The `payload` of `exportSelection()`: `selectedCodes.map(code => getCourse(code))`;
`none` is an `undefined` element. -/
def exportSelection (selectedCodes : List Value) : List (Option Course) :=
  selectedCodes.map (fun code => getCourse code)

/-! ## Submit -/

/-- The array `errors` of `submitSelection()` after its two `if` statements. -/
def submitErrors (credits : Nat) : List JSString :=
  let errors : List JSString := []
  let errors :=
    if credits < MIN_CREDITS then
      errors ++ [js "Add " ++ numberToString (MIN_CREDITS - credits) ++
        js " more credit(s) to reach minimum " ++ numberToString MIN_CREDITS ++ js "."]
    else errors
  let errors :=
    if credits > MAX_CREDITS then
      errors ++ [js "Remove " ++ numberToString (credits - MAX_CREDITS) ++
        js " credit(s) to be at most " ++ numberToString MAX_CREDITS ++ js "."]
    else errors
  errors

/-- The method `errors.join(' ')`. -/
def joinWithSpace : List JSString → JSString
  | [] => []
  | [e] => e
  | e :: rest => e ++ 32 :: joinWithSpace rest

/-- The key of the submission snapshot: `LOCALSTORE_KEY + '_submitted'`. -/
def SUBMITTED_KEY : JSString := LOCALSTORE_KEY ++ js "_submitted"

/-- The text `JSON.stringify({ ts: Date.now(), selection: selectedCodes })`, where `now`
is the integer `Date.now()` returns (a time value, below `10^21`, is serialised as its
decimal digits). -/
def snapshotText (h : Host) (now : Nat) (selectedCodes : List Value) : JSString :=
  123 :: (js "\"ts\":" ++ numberToString now ++ js ",\"selection\":" ++
    JSON.stringify h (Value.arr selectedCodes) ++ [125])

/-- The handler `submitSelection()`; `now` is the value of `Date.now()`. -/
def submitSelection (h : Host) (now : Nat) (st : AppState) : AppState :=
  let credits := totalCredits st.selectedCodes
  let errors := submitErrors credits
  if errors.length ≠ 0 then
    { st with modalText := joinWithSpace errors, showModal := true }
  else
    { st with
      message := some
        { type := js "success"
          text := js "Submitted successfully (" ++ numberToString credits ++
            js " credits). Draft locked." }
      localStorage := st.localStorage.setItem SUBMITTED_KEY (snapshotText h now st.selectedCodes) }

/-! ## Filtering and searching -/

/-- Lower-case form of an ASCII code unit. -/
def asciiLower (u : Nat) : Nat :=
  if 65 ≤ u ∧ u ≤ 90 then u + 32 else u

/-- The method `s.toLowerCase()`: on an ASCII string the letters `A`-`Z` move to
`a`-`z`; other strings are converted by the host. -/
def toLowerCase (h : Host) (s : JSString) : JSString :=
  if s.all (fun u => decide (u < 128)) then s.map asciiLower else h.unicodeLowerCase s

/-- The method `s.includes(searchString)`: `searchString` occurs in `s` as a run of
consecutive code units. -/
def includes : JSString → JSString → Bool
  | [], searchString => searchString.isEmpty
  | u :: rest, searchString =>
    searchString.isPrefixOf (u :: rest) || includes rest searchString

/-- The render value `visible`. -/
def visible (h : Host) (filter search : JSString) : List Course :=
  CATALOG.filter (fun c =>
    (filter == js "All" || c.domain == filter) &&
      (includes (toLowerCase h c.code) (toLowerCase h search) ||
        includes (toLowerCase h c.title) (toLowerCase h search)))

/-! ## The "Selected" list of the render -/

/-- Reading a property of `undefined` throws a `TypeError`. -/
inductive RenderError where
  | typeError
  deriving DecidableEq, Repr

/-- What one `<li>` of the "Selected" list shows: `c.code`, `c.title`, `c.credits`. -/
structure SelectedItem where
  code : JSString
  title : JSString
  credits : Nat
  deriving DecidableEq, Repr

/-- One element of `selectedCodes.map(code => ...)` in the render: `c = getCourse(code)`
and then `c.code`, `c.title`, `c.credits`, with no test of `c`. -/
def renderSelectedItem (code : Value) : Except RenderError SelectedItem :=
  match getCourse code with
  | some c => .ok { code := c.code, title := c.title, credits := c.credits }
  | none => .error .typeError

/-- The "Selected" list of the render. -/
def renderSelectedList (selectedCodes : List Value) : Except RenderError (List SelectedItem) :=
  selectedCodes.mapM renderSelectedItem

/-! ## Auxiliary notions used in the statements -/

/-- Credits a selected value contributes, looked up in an arbitrary catalog. -/
def creditsIn (cat : List Course) (v : Value) : Nat :=
  match cat.find? (fun c => v.isString c.code) with
  | some c => c.credits
  | none => 0

/-- The string a value is, when it is one. -/
def Value.string? : Value → Option JSString
  | .str s => some s
  | _ => none

/-- The selection invariant of the data model: no code twice, and every element is the
code of a catalog record (its lookup succeeds). -/
def ValidSelection (sel : List Value) : Prop :=
  sel.Nodup ∧ ∀ v ∈ sel, (getCourse v).isSome = true

/-- States reached from the first render by the mount-time draft load (whatever the
storage holds), `toggleCourse` on codes of catalog records, and `clearDraft`. -/
inductive Reachable : AppState → Prop where
  | mount (store : Storage) : Reachable (loadDraftOnMount (initialState store))
  | toggle (c : Course) (st : AppState) :
      c ∈ CATALOG → Reachable st → Reachable (st.toggle c.code)
  | clear (st : AppState) : Reachable st → Reachable (clearDraft st)

/-- A stored draft value that keeps the invariant: when it is the JSON text of an
array, the array satisfies `ValidSelection`. -/
def AdmissibleDraft (raw : Option JSString) : Prop :=
  ∀ text items, raw = some text → JSON.parse text = Except.ok (Value.arr items) →
    ValidSelection items

/-- The states of `Reachable` when the draft value read at mount is admissible. -/
inductive ReachableFromAdmissible : AppState → Prop where
  | mount (store : Storage) :
      AdmissibleDraft (store.getItem LOCALSTORE_KEY) →
        ReachableFromAdmissible (loadDraftOnMount (initialState store))
  | toggle (c : Course) (st : AppState) :
      c ∈ CATALOG → ReachableFromAdmissible st → ReachableFromAdmissible (st.toggle c.code)
  | clear (st : AppState) : ReachableFromAdmissible st → ReachableFromAdmissible (clearDraft st)

/-- A storage that holds `text` under the draft key and nothing else. -/
def draftStore (text : JSString) : Storage :=
  Storage.setItem (fun _ => none) LOCALSTORE_KEY text

/-! # Theorems -/

/-! ## Lemmas on lookup and totals -/

theorem Value.isString_iff (code : JSString) (v : Value) :
    v.isString code = true ↔ v = Value.str code := by
  cases v <;> simp [Value.isString]

theorem totalCredits_eq_sum (sel : List Value) :
    totalCredits sel = (sel.map (creditsIn CATALOG)).sum := by
  have h : ∀ (l : List Value) (acc : Nat),
      l.foldl (fun sum code => sum + (match getCourse code with
        | some c => c.credits
        | none => 0)) acc = acc + (l.map (creditsIn CATALOG)).sum := by
    intro l
    induction l with
    | nil => intro acc; simp
    | cons v vs ih =>
      intro acc
      simp only [List.foldl_cons, List.map_cons, List.sum_cons, ih]
      simp only [creditsIn, getCourse]
      omega
  simpa [totalCredits] using h sel 0

theorem creditsIn_cons (c : Course) (rest : List Course) (v : Value) :
    creditsIn (c :: rest) v = if v.isString c.code then c.credits else creditsIn rest v := by
  simp only [creditsIn, List.find?_cons]
  cases h : v.isString c.code <;> simp

theorem creditsIn_absent (cat : List Course) (code : JSString) (v : Value)
    (hv : v.isString code = true) (h : code ∉ cat.map Course.code) : creditsIn cat v = 0 := by
  induction cat with
  | nil => simp [creditsIn]
  | cons c rest ih =>
    simp only [List.map_cons, List.mem_cons, not_or] at h
    rw [creditsIn_cons]
    have hc : v.isString c.code = false := by
      cases hb : v.isString c.code
      · rfl
      · rw [Value.isString_iff] at hb hv
        rw [hb] at hv
        injection hv with hv
        exact absurd hv.symm h.1
    simp [hc, ih h.2]

theorem sum_ite_isString (sel : List Value) (a : JSString) (k : Nat) (f : Value → Nat)
    (hf : ∀ v, v.isString a = true → f v = 0) :
    (sel.map (fun v => if v.isString a then k else f v)).sum
      = sel.countP (Value.isString a) * k + (sel.map f).sum := by
  induction sel with
  | nil => simp
  | cons v vs ih =>
    simp only [List.map_cons, List.sum_cons, ih, List.countP_cons]
    cases hv : v.isString a
    · simp; omega
    · simp [hf v hv]; ring

theorem countP_isString_of_nodup (sel : List Value) (a : JSString) (h : sel.Nodup) :
    sel.countP (Value.isString a) = if sel.any (Value.isString a) then 1 else 0 := by
  induction sel with
  | nil => simp
  | cons v vs ih =>
    rw [List.nodup_cons] at h
    simp only [List.countP_cons, List.any_cons, ih h.2]
    by_cases hv : v.isString a = true
    swap
    · simp [hv]
    · have hv2 := (Value.isString_iff a v).1 hv
      have : vs.any (Value.isString a) = false := by
        cases hb : vs.any (Value.isString a)
        · rfl
        · rw [List.any_eq_true] at hb
          obtain ⟨w, hw, hw2⟩ := hb
          rw [Value.isString_iff] at hw2
          rw [hw2, ← hv2] at hw
          exact absurd hw h.1
      simp [this, hv]

theorem sum_creditsIn (cat : List Course) (hcat : (cat.map Course.code).Nodup)
    (sel : List Value) (hsel : sel.Nodup) :
    (sel.map (creditsIn cat)).sum
      = ((cat.filter (fun c => sel.any (Value.isString c.code))).map Course.credits).sum := by
  induction cat with
  | nil =>
    have h0 : creditsIn [] = fun _ => 0 := by
      funext v
      simp [creditsIn]
    simp [h0]
  | cons c rest ih =>
    rw [List.map_cons, List.nodup_cons] at hcat
    have h1 : sel.map (creditsIn (c :: rest))
        = sel.map (fun v => if v.isString c.code then c.credits else creditsIn rest v) := by
      apply List.map_congr_left
      intro v _
      exact creditsIn_cons c rest v
    rw [h1, sum_ite_isString sel c.code c.credits (creditsIn rest)
      (fun v hv => creditsIn_absent rest c.code v hv hcat.1),
      countP_isString_of_nodup sel c.code hsel, ih hcat.2, List.filter_cons]
    cases hb : sel.any (Value.isString c.code) <;> simp

theorem toggleCourse_nodup (code : JSString) (prev : List Value) (h : prev.Nodup) :
    (toggleCourse code prev).Nodup := by
  unfold toggleCourse
  split
  · exact h.filter _
  · rename_i hn
    rw [List.nodup_append]
    refine ⟨h, List.nodup_singleton _, ?_⟩
    intro v hv hv2
    rw [List.mem_singleton] at hv2
    apply hn
    rw [List.any_eq_true]
    exact ⟨v, hv, (Value.isString_iff code v).2 hv2⟩

theorem toggleAll_nodup (codes : List JSString) (start : List Value) (h : start.Nodup) :
    (toggleAll codes start).Nodup := by
  induction codes generalizing start with
  | nil => simpa [toggleAll] using h
  | cons c cs ih =>
    simp only [toggleAll, List.foldl_cons]
    exact ih _ (toggleCourse_nodup c start h)

theorem catalog_codes_nodup : (CATALOG.map Course.code).Nodup := by decide

/-- C1: after any finite sequence of `toggleCourse` calls on the empty selection,
`totalCredits` is the sum of `credits` over the catalog records whose code is selected,
each counted once; selected codes without a catalog record add nothing. -/
theorem totalCredits_after_toggles (codes : List JSString) :
    totalCredits (toggleAll codes [])
      = ((CATALOG.filter
            (fun c => (toggleAll codes []).any (Value.isString c.code))).map
          Course.credits).sum := by
  rw [totalCredits_eq_sum]
  exact sum_creditsIn CATALOG catalog_codes_nodup _ (toggleAll_nodup codes [] List.nodup_nil)


/-! ## Toggling twice -/

theorem filter_not_isString_of_any_false (code : JSString) (sel : List Value)
    (h : sel.any (Value.isString code) = false) :
    sel.filter (fun c => !(c.isString code)) = sel := by
  rw [List.filter_eq_self]
  intro v hv
  have := List.any_eq_false.1 h v hv
  simpa using this

theorem any_isString_filter_not (code : JSString) (sel : List Value) :
    (sel.filter (fun c => !(c.isString code))).any (Value.isString code) = false := by
  rw [List.any_eq_false]
  intro v hv
  have := (List.mem_filter.1 hv).2
  simpa using this

theorem toggleCourse_of_selected (code : JSString) (sel : List Value)
    (h : sel.any (Value.isString code) = true) :
    toggleCourse code sel = sel.filter (fun c => !(c.isString code)) := by
  simp [toggleCourse, h]

theorem toggleCourse_of_not_selected (code : JSString) (sel : List Value)
    (h : sel.any (Value.isString code) = false) :
    toggleCourse code sel = sel ++ [Value.str code] := by
  simp [toggleCourse, h]

theorem any_isString_append_self (code : JSString) (sel : List Value) :
    (sel ++ [Value.str code]).any (Value.isString code) = true := by
  simp [Value.isString]

theorem eq_singleton_of_nodup (a : Value) (l : List Value) (hn : l.Nodup)
    (hall : ∀ x ∈ l, x = a) (hne : l ≠ []) : l = [a] := by
  cases l with
  | nil => exact absurd rfl hne
  | cons x xs =>
    have hx : x = a := hall x (List.mem_cons_self x xs)
    cases xs with
    | nil => rw [hx]
    | cons y ys =>
      have hy : y = a := hall y (by simp)
      rw [List.nodup_cons] at hn
      exact absurd (by rw [hx, hy]; exact List.mem_cons_self a ys) hn.1

theorem filter_isString_of_nodup (code : JSString) (sel : List Value) (hn : sel.Nodup)
    (h : sel.any (Value.isString code) = true) :
    sel.filter (Value.isString code) = [Value.str code] := by
  apply eq_singleton_of_nodup _ _ (hn.filter _)
  · intro x hx
    exact (Value.isString_iff code x).1 (List.mem_filter.1 hx).2
  · rw [List.any_eq_true] at h
    obtain ⟨x, hx, hx2⟩ := h
    exact List.ne_nil_of_mem (List.mem_filter.2 ⟨hx, hx2⟩)

theorem toggle_twice_not_selected (code : JSString) (sel : List Value)
    (h : sel.any (Value.isString code) = false) :
    toggleCourse code (toggleCourse code sel) = sel := by
  rw [toggleCourse_of_not_selected code sel h,
    toggleCourse_of_selected code _ (any_isString_append_self code sel), List.filter_append,
    filter_not_isString_of_any_false code sel h]
  simp [Value.isString]

theorem toggle_twice_selected (code : JSString) (sel : List Value)
    (h : sel.any (Value.isString code) = true) :
    toggleCourse code (toggleCourse code sel)
      = sel.filter (fun c => !(c.isString code)) ++ [Value.str code] := by
  rw [toggleCourse_of_selected code sel h,
    toggleCourse_of_not_selected code _ (any_isString_filter_not code sel)]

/-- C3 (as stated, refuted): toggling the selected code `CS101` twice in the
duplicate-free selection `[CS101, CS102]` gives `[CS102, CS101]`, not the original
sequence. -/
theorem toggle_twice_reorders :
    [Value.str (js "CS101"), Value.str (js "CS102")].Nodup ∧
      toggleCourse (js "CS101")
          (toggleCourse (js "CS101") [Value.str (js "CS101"), Value.str (js "CS102")])
        = [Value.str (js "CS102"), Value.str (js "CS101")] ∧
      toggleCourse (js "CS101")
          (toggleCourse (js "CS101") [Value.str (js "CS101"), Value.str (js "CS102")])
        ≠ [Value.str (js "CS101"), Value.str (js "CS102")] :=
  ⟨List.Nodup.of_map Value.string? (by decide), rfl,
    fun h => absurd (congrArg (List.map Value.string?) h) (by decide)⟩

/-- C3 (amended): on a duplicate-free selection, toggling a code twice gives a
permutation of the original selection; the sequence is unchanged when the code was not
selected, and when it was selected the code moves to the end and the other codes keep
their order. -/
theorem toggle_twice_perm (sel : List Value) (code : JSString) (hn : sel.Nodup) :
    (toggleCourse code (toggleCourse code sel)).Perm sel ∧
      (sel.any (Value.isString code) = false →
        toggleCourse code (toggleCourse code sel) = sel) ∧
      (sel.any (Value.isString code) = true →
        toggleCourse code (toggleCourse code sel)
          = sel.filter (fun c => !(c.isString code)) ++ [Value.str code]) := by
  refine ⟨?_, toggle_twice_not_selected code sel, toggle_twice_selected code sel⟩
  cases h : sel.any (Value.isString code)
  · rw [toggle_twice_not_selected code sel h]
  · rw [toggle_twice_selected code sel h, ← filter_isString_of_nodup code sel hn h]
    exact List.perm_append_comm.trans (List.filter_append_perm (Value.isString code) sel)

theorem toggle_twice_perm_witness :
    [Value.str (js "CS101"), Value.str (js "CS102")].Nodup ∧
      (toggleCourse (js "CS101")
          (toggleCourse (js "CS101") [Value.str (js "CS101"), Value.str (js "CS102")])).Perm
        [Value.str (js "CS101"), Value.str (js "CS102")] :=
  ⟨List.Nodup.of_map Value.string? (by decide),
    (toggle_twice_perm [Value.str (js "CS101"), Value.str (js "CS102")] (js "CS101")
      (List.Nodup.of_map Value.string? (by decide))).1⟩

/-! ## Submission -/

theorem submitErrors_under (t : Nat) (h : t < 16) :
    submitErrors t = [js "Add " ++ numberToString (16 - t) ++
      js " more credit(s) to reach minimum " ++ numberToString 16 ++ js "."] := by
  have h2 : ¬ t > 27 := by omega
  simp [submitErrors, MIN_CREDITS, MAX_CREDITS, h, h2]

theorem submitErrors_over (t : Nat) (h : 27 < t) :
    submitErrors t = [js "Remove " ++ numberToString (t - 27) ++
      js " credit(s) to be at most " ++ numberToString 27 ++ js "."] := by
  have h2 : ¬ t < 16 := by omega
  simp [submitErrors, MIN_CREDITS, MAX_CREDITS, h, h2]

theorem submitErrors_valid (t : Nat) (h1 : 16 ≤ t) (h2 : t ≤ 27) : submitErrors t = [] := by
  have h3 : ¬ t < 16 := by omega
  have h4 : ¬ t > 27 := by omega
  simp [submitErrors, MIN_CREDITS, MAX_CREDITS, h3, h4]

theorem submitErrors_eq_nil_iff (t : Nat) : submitErrors t = [] ↔ 16 ≤ t ∧ t ≤ 27 := by
  constructor
  · intro h
    by_contra hc
    rcases Nat.lt_or_ge t 16 with h1 | h1
    · rw [submitErrors_under t h1] at h
      exact absurd h (List.cons_ne_nil _ _)
    · rcases Nat.lt_or_ge 27 t with h2 | h2
      · rw [submitErrors_over t h2] at h
        exact absurd h (List.cons_ne_nil _ _)
      · exact hc ⟨h1, h2⟩
  · intro h
    exact submitErrors_valid t h.1 h.2

/-- C2: `submitSelection` collects no error exactly when `16 <= total <= 27`, and then it
reports the total in the success message and writes the snapshot; below 16 it rejects with
the single reason "Add (16 - total) more credit(s) to reach minimum 16.", above 27 with
the single reason "Remove (total - 27) credit(s) to be at most 27.", shown in the modal
with nothing stored.  The three selections of the claim total 7, 17 and 30 and give
"Add 9 more credit(s) to reach minimum 16.", acceptance with 17 and
"Remove 3 credit(s) to be at most 27."; the wording quoted in the claim occurs in these
texts up to letter case. -/
theorem submit_accepts_iff_in_range (h : Host) (now : Nat) (st : AppState) :
    (submitErrors (totalCredits st.selectedCodes) = [] ↔
        16 ≤ totalCredits st.selectedCodes ∧ totalCredits st.selectedCodes ≤ 27) ∧
      (submitErrors (totalCredits st.selectedCodes)).length ≤ 1 ∧
      (16 ≤ totalCredits st.selectedCodes ∧ totalCredits st.selectedCodes ≤ 27 →
        (submitSelection h now st).message = some
            { type := js "success"
              text := js "Submitted successfully (" ++
                numberToString (totalCredits st.selectedCodes) ++
                js " credits). Draft locked." } ∧
          (submitSelection h now st).localStorage
            = st.localStorage.setItem SUBMITTED_KEY (snapshotText h now st.selectedCodes) ∧
          (submitSelection h now st).showModal = st.showModal ∧
          (submitSelection h now st).modalText = st.modalText) ∧
      (totalCredits st.selectedCodes < 16 →
        submitErrors (totalCredits st.selectedCodes)
            = [js "Add " ++ numberToString (16 - totalCredits st.selectedCodes) ++
                js " more credit(s) to reach minimum " ++ numberToString 16 ++ js "."] ∧
          (submitSelection h now st).showModal = true ∧
          (submitSelection h now st).modalText
            = js "Add " ++ numberToString (16 - totalCredits st.selectedCodes) ++
                js " more credit(s) to reach minimum " ++ numberToString 16 ++ js "." ∧
          (submitSelection h now st).message = st.message ∧
          (submitSelection h now st).localStorage = st.localStorage) ∧
      (27 < totalCredits st.selectedCodes →
        submitErrors (totalCredits st.selectedCodes)
            = [js "Remove " ++ numberToString (totalCredits st.selectedCodes - 27) ++
                js " credit(s) to be at most " ++ numberToString 27 ++ js "."] ∧
          (submitSelection h now st).showModal = true ∧
          (submitSelection h now st).modalText
            = js "Remove " ++ numberToString (totalCredits st.selectedCodes - 27) ++
                js " credit(s) to be at most " ++ numberToString 27 ++ js "." ∧
          (submitSelection h now st).message = st.message ∧
          (submitSelection h now st).localStorage = st.localStorage) ∧
      (totalCredits [Value.str (js "IS701"), Value.str (js "IS702"), Value.str (js "IS703"),
            Value.str (js "IS704")] = 7 ∧
        submitErrors 7 = [js "Add 9 more credit(s) to reach minimum 16."] ∧
        includes (toLowerCase h (js "Add 9 more credit(s) to reach minimum 16."))
          (js "add 9 more credit(s) to reach minimum 16") = true) ∧
      (totalCredits [Value.str (js "CS101"), Value.str (js "CS102"), Value.str (js "CS103"),
            Value.str (js "CS104"), Value.str (js "CS105")] = 17 ∧
        submitErrors 17 = [] ∧
        js "Submitted successfully (" ++ numberToString 17 ++ js " credits). Draft locked."
          = js "Submitted successfully (17 credits). Draft locked.") ∧
      (totalCredits [Value.str (js "CS101"), Value.str (js "CS102"), Value.str (js "CS103"),
            Value.str (js "CS104"), Value.str (js "CS105"), Value.str (js "CS106"),
            Value.str (js "CS107"), Value.str (js "CS108"), Value.str (js "SE203")] = 30 ∧
        submitErrors 30 = [js "Remove 3 credit(s) to be at most 27."] ∧
        includes (toLowerCase h (js "Remove 3 credit(s) to be at most 27."))
          (js "remove 3 credit(s) to be at most 27") = true) := by
  refine ⟨submitErrors_eq_nil_iff _, ?_, ?_, ?_, ?_, ⟨by decide, by decide, rfl⟩,
    ⟨by decide, by decide, by decide⟩, ⟨by decide, by decide, rfl⟩⟩
  · rcases Nat.lt_or_ge (totalCredits st.selectedCodes) 16 with h1 | h1
    · rw [submitErrors_under _ h1]; simp
    · rcases Nat.lt_or_ge 27 (totalCredits st.selectedCodes) with h2 | h2
      · rw [submitErrors_over _ h2]; simp
      · rw [submitErrors_valid _ h1 h2]; simp
  · intro hr
    simp [submitSelection, submitErrors_valid _ hr.1 hr.2]
  · intro hr
    refine ⟨submitErrors_under _ hr, ?_⟩
    simp [submitSelection, submitErrors_under _ hr, joinWithSpace]
  · intro hr
    refine ⟨submitErrors_over _ hr, ?_⟩
    simp [submitSelection, submitErrors_over _ hr, joinWithSpace]

theorem submit_accepts_iff_in_range_witness :
    (submitSelection ⟨id, fun _ => [], id⟩ 1700000000000
        { initialState (fun _ => none) with
          selectedCodes := [Value.str (js "IS701"), Value.str (js "IS702"),
            Value.str (js "IS703"), Value.str (js "IS704")] }).modalText
      = js "Add 9 more credit(s) to reach minimum 16." ∧
    (submitSelection ⟨id, fun _ => [], id⟩ 1700000000000
        { initialState (fun _ => none) with
          selectedCodes := [Value.str (js "CS101"), Value.str (js "CS102"),
            Value.str (js "CS103"), Value.str (js "CS104"), Value.str (js "CS105")] }).message
      = some { type := js "success",
               text := js "Submitted successfully (17 credits). Draft locked." } ∧
    (submitSelection ⟨id, fun _ => [], id⟩ 1700000000000
        { initialState (fun _ => none) with
          selectedCodes := [Value.str (js "CS101"), Value.str (js "CS102"),
            Value.str (js "CS103"), Value.str (js "CS104"), Value.str (js "CS105"),
            Value.str (js "CS106"), Value.str (js "CS107"), Value.str (js "CS108"),
            Value.str (js "SE203")] }).modalText
      = js "Remove 3 credit(s) to be at most 27." := by
  refine ⟨?_, ?_, ?_⟩
  · rw [((submit_accepts_iff_in_range _ _ _).2.2.2.1 (by decide)).2.2.1]
    decide
  · rw [((submit_accepts_iff_in_range _ _ _).2.2.1 (by decide)).1]
    decide
  · rw [((submit_accepts_iff_in_range _ _ _).2.2.2.2.1 (by decide)).2.2.1]
    decide

/-! ## Filtering and searching -/

theorem includes_iff (s n : JSString) : includes s n = true ↔ n <:+: s := by
  induction s with
  | nil => simp [includes, List.isEmpty_iff]
  | cons u rest ih =>
    simp only [includes, Bool.or_eq_true, ih, List.infix_cons_iff, List.isPrefixOf_iff_prefix]

theorem toLowerCase_nil (h : Host) : toLowerCase h [] = [] := by
  simp [toLowerCase]

/-- C6: `visible` is the catalog filtered, in catalog order, by: the domain is `All` or
the record's domain, and the search text is empty or occurs, both sides lower-cased, in
the record's code or in its title.  Domain `AI` with an empty search gives AI501, AI502,
AI503; domain `All` with search `cs10` gives CS101 to CS108. -/
theorem visible_is_filtered_catalog (h : Host) (filter search : JSString) :
    visible h filter search
        = CATALOG.filter (fun c => decide
            ((filter = js "All" ∨ c.domain = filter) ∧
              (search = [] ∨ toLowerCase h search <:+: toLowerCase h c.code ∨
                toLowerCase h search <:+: toLowerCase h c.title))) ∧
      (visible h filter search).Sublist CATALOG ∧
      (visible h (js "AI") []).map Course.code = [js "AI501", js "AI502", js "AI503"] ∧
      (visible h (js "All") (js "cs10")).map Course.code
        = [js "CS101", js "CS102", js "CS103", js "CS104", js "CS105", js "CS106",
            js "CS107", js "CS108"] := by
  refine ⟨?_, List.filter_sublist _, rfl, rfl⟩
  unfold visible
  apply List.filter_congr
  intro c _
  rw [Bool.eq_iff_iff]
  simp only [Bool.and_eq_true, Bool.or_eq_true, beq_iff_eq, includes_iff, decide_eq_true_eq]
  constructor
  · rintro ⟨hd, hs⟩
    exact ⟨hd, Or.inr hs⟩
  · rintro ⟨hd, hs⟩
    refine ⟨hd, ?_⟩
    rcases hs with hs | hs
    · subst hs
      rw [toLowerCase_nil]
      exact Or.inl List.nil_infix
    · exact hs

/-! ## Export and the "Selected" list -/

theorem getCourse_some (v : Value) (c : Course) (h : getCourse v = some c) :
    c ∈ CATALOG ∧ v = Value.str c.code := by
  unfold getCourse at h
  exact ⟨List.mem_of_find?_eq_some h,
    (Value.isString_iff c.code v).1 (by simpa using List.find?_some h)⟩

/-- C9 (as stated, refuted): for the selection `[XX999]`, whose code has no catalog
record, the payload is `[undefined]`: it has one entry, while no selected code resolves. -/
theorem export_keeps_unresolved_entry :
    exportSelection [Value.str (js "XX999")] = [none] ∧
      (exportSelection [Value.str (js "XX999")]).length
        ≠ ([Value.str (js "XX999")].filter (fun v => (getCourse v).isSome)).length := by
  refine ⟨by decide, by decide⟩

/-- Every catalog record is what `getCourse` returns for its own code. -/
theorem getCourse_catalog_code :
    ∀ c ∈ CATALOG, getCourse (Value.str c.code) = some c := by decide

theorem getCourse_eq_none (v : Value) (h : ∀ c ∈ CATALOG, v ≠ Value.str c.code) :
    getCourse v = none := by
  unfold getCourse
  rw [List.find?_eq_none]
  intro c hc hs
  exact h c hc ((Value.isString_iff c.code v).1 hs)

/-- C9 (amended): the payload has one entry per selected code, in selection order, so
its length is the length of the selection.  At each position, when the selected value is
the code of a catalog record the entry is that full record, and when no catalog record
has that code the entry is `undefined`.  Dropping the `undefined` entries leaves one
record for each selected code that resolves.  The selection `[CS101, XX999, AI502]`
exports as `[record of CS101, undefined, record of AI502]`. -/
theorem export_entry_per_selected_code (selectedCodes : List Value) :
    (exportSelection selectedCodes).length = selectedCodes.length ∧
      (∀ i : Fin selectedCodes.length,
        (∀ c ∈ CATALOG, selectedCodes[i.val] = Value.str c.code →
          (exportSelection selectedCodes)[i.val]? = some (some c)) ∧
        ((∀ c ∈ CATALOG, selectedCodes[i.val] ≠ Value.str c.code) →
          (exportSelection selectedCodes)[i.val]? = some none)) ∧
      (∀ entry ∈ exportSelection selectedCodes, ∀ c, entry = some c →
        c ∈ CATALOG ∧ Value.str c.code ∈ selectedCodes) ∧
      ((exportSelection selectedCodes).filterMap id).length
        = (selectedCodes.filter (fun v => (getCourse v).isSome)).length ∧
      exportSelection [Value.str (js "CS101"), Value.str (js "XX999"), Value.str (js "AI502")]
        = [some { code := js "CS101", title := js "Programming I: C/C++", credits := 3,
                  domain := js "Core" },
            none,
            some { code := js "AI502", title := js "Machine Learning", credits := 4,
                   domain := js "AI" }] := by
  refine ⟨by simp [exportSelection], ?_, ?_, ?_, by decide⟩
  · intro i
    constructor
    · intro c hc hi
      simp only [exportSelection, List.getElem?_map, List.getElem?_eq_getElem i.isLt,
        Option.map_some', hi, getCourse_catalog_code c hc]
    · intro hn
      simp only [exportSelection, List.getElem?_map, List.getElem?_eq_getElem i.isLt,
        Option.map_some', getCourse_eq_none _ hn]
  · intro entry he c hec
    subst hec
    simp only [exportSelection, List.mem_map] at he
    obtain ⟨v, hv, hg⟩ := he
    obtain ⟨hc, hvc⟩ := getCourse_some v c hg
    exact ⟨hc, hvc ▸ hv⟩
  · simp only [exportSelection, List.filterMap_map, Function.id_comp]
    induction selectedCodes with
    | nil => rfl
    | cons v vs ih =>
      cases hv : getCourse v <;> simp [List.filterMap_cons, List.filter_cons, hv, ih]

theorem renderSelectedList_cons (v : Value) (vs : List Value) :
    renderSelectedList (v :: vs)
      = match renderSelectedItem v with
        | .error e => .error e
        | .ok item =>
          match renderSelectedList vs with
          | .error e => .error e
          | .ok items => .ok (item :: items) := by
  simp only [renderSelectedList, List.mapM_cons, bind, Except.bind, pure, Except.pure]
  cases renderSelectedItem v with
  | error e => rfl
  | ok item =>
    simp only
    cases List.mapM renderSelectedItem vs <;> rfl

/-- The "Selected" list renders exactly when every selected code has a catalog record;
otherwise the render throws. -/
theorem renderSelectedList_ok_iff (sel : List Value) :
    (∃ items, renderSelectedList sel = Except.ok items) ↔
      ∀ v ∈ sel, (getCourse v).isSome = true := by
  induction sel with
  | nil => exact ⟨fun _ _ hm => absurd hm (List.not_mem_nil _), fun _ => ⟨[], rfl⟩⟩
  | cons v vs ih =>
    rw [renderSelectedList_cons]
    simp only [List.mem_cons, forall_eq_or_imp, ← ih]
    unfold renderSelectedItem
    cases hg : getCourse v with
    | none => simp
    | some c =>
      simp only [Option.isSome_some, true_and]
      cases renderSelectedList vs with
      | error e => simp
      | ok items => simp

/-- C10 (the code at the failing input): with the stored draft `["XX999"]` the mount
effect selects `XX999`; `totalCredits` is 0 and the export payload is `[undefined]`, but
the "Selected" list reads `c.code` of the missing record and throws a `TypeError`. -/
theorem selected_list_throws_on_unknown_code :
    loadDraft (some (js "[\"XX999\"]")) [] = [Value.str (js "XX999")] ∧
      getCourse (Value.str (js "XX999")) = none ∧
      totalCredits [Value.str (js "XX999")] = 0 ∧
      exportSelection [Value.str (js "XX999")] = [none] ∧
      renderSelectedList [Value.str (js "XX999")] = Except.error RenderError.typeError := by
  refine ⟨rfl, by decide, by decide, by decide, rfl⟩

/-! ## `JSON.parse` after `JSON.stringify` on strings -/

theorem hexValue_hexDigit (d : Nat) (h : d < 16) : hexValue (hexDigit d) = some d := by
  unfold hexDigit hexValue
  by_cases h10 : d < 10
  · have h1 : 48 ≤ 48 + d ∧ 48 + d ≤ 57 := by omega
    simp [h10, h1]
  · have h1 : ¬ (48 ≤ 87 + d ∧ 87 + d ≤ 57) := by omega
    have h2 : 97 ≤ 87 + d ∧ 87 + d ≤ 102 := by omega
    simp [h10, h1, h2]

theorem parseStringChars_verbatim (u : Nat) (t : JSString) (h32 : 32 ≤ u) (hq : u ≠ 34)
    (hb : u ≠ 92) :
    parseStringChars (u :: t)
      = match parseStringChars t with
        | some (s, r) => some (u :: s, r)
        | none => none := by
  have h3 : ¬ u < 32 := by omega
  rw [parseStringChars.eq_def]
  simp only [hq, hb, h3, if_false]

theorem parseStringChars_hex (a b c d : Nat) (t : JSString) :
    parseStringChars (92 :: 117 :: a :: b :: c :: d :: t)
      = match hexValue a, hexValue b, hexValue c, hexValue d with
        | some x, some y, some z, some w =>
          match parseStringChars t with
          | some (s, r) => some ((x * 4096 + y * 256 + z * 16 + w) :: s, r)
          | none => none
        | _, _, _, _ => none := by
  rw [parseStringChars]
  simp

theorem parseStringChars_escape (e : Nat) (t : JSString) (h : e ≠ 117) :
    parseStringChars (92 :: e :: t)
      = match unescape e with
        | some ch =>
          match parseStringChars t with
          | some (s, r) => some (ch :: s, r)
          | none => none
        | none => none := by
  rw [parseStringChars.eq_def]
  simp [h]

theorem parseStringChars_unicodeEscape (u : Nat) (t : JSString) (h : u < 65536) :
    parseStringChars (unicodeEscape u ++ t)
      = match parseStringChars t with
        | some (s, r) => some (u :: s, r)
        | none => none := by
  have e : u / 4096 % 16 * 4096 + u / 256 % 16 * 256 + u / 16 % 16 * 16 + u % 16 = u := by
    omega
  simp only [unicodeEscape, List.cons_append, List.nil_append, parseStringChars_hex,
    hexValue_hexDigit _ (Nat.mod_lt _ (by decide : 16 > 0)), e]

theorem parseStringChars_quoteUnit (u : Nat) (t : JSString) :
    parseStringChars (quoteUnit u ++ t)
      = match parseStringChars t with
        | some (s, r) => some (u :: s, r)
        | none => none := by
  unfold quoteUnit
  split
  · subst u; simp [parseStringChars_escape, unescape]
  split
  · subst u; simp [parseStringChars_escape, unescape]
  split
  · subst u; simp [parseStringChars_escape, unescape]
  split
  · subst u; simp [parseStringChars_escape, unescape]
  split
  · subst u; simp [parseStringChars_escape, unescape]
  split
  · subst u; simp [parseStringChars_escape, unescape]
  split
  · subst u; simp [parseStringChars_escape, unescape]
  split
  · exact parseStringChars_unicodeEscape u t (by omega)
  split
  · rename_i hs
    apply parseStringChars_unicodeEscape
    simp only [isLeadSurrogate, isTrailSurrogate, Bool.or_eq_true, Bool.and_eq_true,
      decide_eq_true_eq] at hs
    omega
  · rename_i h8 h9 h10 h12 h13 h34 h92 h32 hs
    exact parseStringChars_verbatim u t (by omega) h34 h92

theorem parseStringChars_quoteChars (s t : JSString) :
    parseStringChars (quoteChars s ++ 34 :: t) = some (s, t) := by
  induction s using quoteChars.induct with
  | case1 => rw [quoteChars, List.nil_append, parseStringChars.eq_def]; simp
  | case2 u =>
    rw [quoteChars, parseStringChars_quoteUnit, parseStringChars.eq_def]
    simp
  | case3 u v rest hp ih =>
    rw [quoteChars, if_pos hp]
    simp only [isLeadSurrogate, isTrailSurrogate, Bool.and_eq_true, decide_eq_true_eq] at hp
    rw [List.cons_append, List.cons_append,
      parseStringChars_verbatim u _ (by omega) (by omega) (by omega),
      parseStringChars_verbatim v _ (by omega) (by omega) (by omega), ih]
  | case4 u v rest hp ih =>
    rw [quoteChars, if_neg hp, List.append_assoc, parseStringChars_quoteUnit, ih]

theorem quote_append (s t : JSString) : quote s ++ t = 34 :: (quoteChars s ++ 34 :: t) := by
  simp [quote]

theorem parseValue_quote (fuel : Nat) (s t : JSString) :
    parseValue (fuel + 1) (34 :: (quoteChars s ++ 34 :: t)) = Except.ok (Value.str s, t) := by
  rw [parseValue]
  simp [parseStringChars_quoteChars]

theorem skipWhitespace_cons_of_not (u : Nat) (t : JSString) (h : isWhitespace u = false) :
    skipWhitespace (u :: t) = u :: t := by
  simp [skipWhitespace, h]

theorem stringify_str (h : Host) (s : JSString) : JSON.stringify h (Value.str s) = quote s := by
  rw [JSON.stringify]

theorem stringifyItems_strings_cons (h : Host) (s : JSString) (S : List JSString) :
    JSON.stringifyItems h ((s :: S).map Value.str)
      = quote s ++ (match S with
          | [] => []
          | _ :: _ => 44 :: JSON.stringifyItems h (S.map Value.str)) := by
  cases S with
  | nil => simp [JSON.stringifyItems, stringify_str]
  | cons s2 S2 => simp [JSON.stringifyItems, stringify_str]

theorem parseElements_strings (h : Host) (S : List JSString) (s : JSString) (fuel : Nat)
    (t : JSString) (hf : S.length + 2 ≤ fuel) :
    parseElements fuel (JSON.stringifyItems h ((s :: S).map Value.str) ++ 93 :: t)
      = Except.ok ((s :: S).map Value.str, t) := by
  induction S generalizing s fuel with
  | nil =>
    obtain ⟨f, rfl⟩ : ∃ f, fuel = f + 2 := ⟨fuel - 2, by simp at hf; omega⟩
    rw [stringifyItems_strings_cons, parseElements]
    simp only [List.append_nil]
    rw [quote_append, skipWhitespace_cons_of_not 34 _ (by decide), parseValue_quote]
    simp [skipWhitespace_cons_of_not 93 _ (by decide)]
  | cons s2 S2 ih =>
    obtain ⟨f, rfl⟩ : ∃ f, fuel = f + 2 := ⟨fuel - 2, by simp at hf; omega⟩
    rw [stringifyItems_strings_cons, parseElements]
    simp only
    rw [List.append_assoc, quote_append, skipWhitespace_cons_of_not 34 _ (by decide),
      parseValue_quote]
    simp only [List.cons_append, skipWhitespace_cons_of_not 44 _ (by decide)]
    rw [ih s2 (f + 1) (by simp at hf ⊢; omega)]
    simp

theorem length_stringifyItems_strings (h : Host) (S : List JSString) :
    S.length ≤ (JSON.stringifyItems h (S.map Value.str)).length := by
  induction S with
  | nil => simp
  | cons s S ih =>
    rw [stringifyItems_strings_cons]
    cases S with
    | nil => simp [quote]
    | cons s2 S2 =>
      simp only [List.length_append, List.length_cons, quote] at ih ⊢
      omega

theorem stringify_strings (h : Host) (S : List JSString) :
    JSON.stringify h (Value.arr (S.map Value.str))
      = 91 :: (JSON.stringifyItems h (S.map Value.str) ++ [93]) := by
  rw [JSON.stringify]

/-- `JSON.parse` inverts `JSON.stringify` on every array of strings. -/
theorem parse_stringify_strings (h : Host) (S : List JSString) :
    JSON.parse (JSON.stringify h (Value.arr (S.map Value.str)))
      = Except.ok (Value.arr (S.map Value.str)) := by
  rw [stringify_strings]
  cases S with
  | nil =>
    rfl
  | cons s S =>
    have hl := length_stringifyItems_strings h (s :: S)
    unfold JSON.parse
    rw [skipWhitespace_cons_of_not 91 _ (by decide)]
    simp only [List.length_cons, List.length_append, List.length_nil]
    rw [show 2 * ((JSON.stringifyItems h ((s :: S).map Value.str)).length + (0 + 1) + 1) + 1
        = (2 * (JSON.stringifyItems h ((s :: S).map Value.str)).length + 4) + 1 by omega,
      parseValue]
    have hq : ∀ t, skipWhitespace (JSON.stringifyItems h ((s :: S).map Value.str) ++ t)
        = 34 :: (quoteChars s ++ [34] ++ (match S with
          | [] => []
          | _ :: _ => 44 :: JSON.stringifyItems h (S.map Value.str)) ++ t) := by
      intro t
      rw [stringifyItems_strings_cons, quote]
      simp only [List.cons_append, List.append_assoc]
      rw [skipWhitespace_cons_of_not 34 _ (by decide)]
    simp only [show (91 : Nat) ≠ 34 by decide, if_false, if_true, hq]
    rw [parseElements_strings h S s _ [] (by simp at hl ⊢; omega)]
    simp [skipWhitespace]

/-! ## `JSON.parse` is total -/

theorem skipWhitespace_length_le (t : JSString) : (skipWhitespace t).length ≤ t.length := by
  induction t with
  | nil => simp [skipWhitespace]
  | cons u rest ih =>
    rw [skipWhitespace]
    split
    · simp only [List.length_cons]; omega
    · exact Nat.le_refl _

theorem parseStringChars_length_aux (n : Nat) : ∀ (t s r : JSString), t.length ≤ n →
    parseStringChars t = some (s, r) → r.length < t.length := by
  induction n with
  | zero =>
    intro t s r hl h
    cases t with
    | nil => simp [parseStringChars] at h
    | cons u rest => simp at hl
  | succ n ih =>
    intro t s r hl h
    rw [parseStringChars.eq_def] at h
    split at h
    · simp at h
    · rename_i u rest
      split at h
      · simp only [Option.some.injEq, Prod.mk.injEq] at h
        rw [← h.2]; simp
      · split at h
        · split at h
          · simp at h
          · rename_i e rest1
            split at h
            · split at h
              · rename_i a b c d rest2
                split at h
                · split at h
                  · rename_i s2 r2 hp
                    simp only [Option.some.injEq, Prod.mk.injEq] at h
                    have := ih rest2 s2 r2 (by simp at hl ⊢; omega) hp
                    rw [← h.2]; simp; omega
                  · simp at h
                · simp at h
              · simp at h
            · split at h
              · split at h
                · rename_i s2 r2 hp
                  simp only [Option.some.injEq, Prod.mk.injEq] at h
                  have := ih rest1 s2 r2 (by simp at hl ⊢; omega) hp
                  rw [← h.2]; simp; omega
                · simp at h
              · simp at h
        · split at h
          · simp at h
          · split at h
            · rename_i s2 r2 hp
              simp only [Option.some.injEq, Prod.mk.injEq] at h
              have := ih rest s2 r2 (by simp at hl ⊢; omega) hp
              rw [← h.2]; simp; omega
            · simp at h

theorem parseStringChars_length (t s r : JSString) (h : parseStringChars t = some (s, r)) :
    r.length < t.length :=
  parseStringChars_length_aux t.length t s r (Nat.le_refl _) h

theorem span_snd_length_le (p : Nat → Bool) (t : JSString) :
    (t.span p).2.length ≤ t.length := by
  rw [List.span_eq_take_drop]
  exact (List.dropWhile_sublist p).length_le

theorem parseDigits_length (t ds r : JSString) (h : parseDigits t = some (ds, r)) :
    r.length ≤ t.length := by
  unfold parseDigits at h
  have := span_snd_length_le isDigit t
  split at h
  · simp at h
  · rename_i ds2 rest hs
    simp only [Option.some.injEq, Prod.mk.injEq] at h
    rw [hs] at this
    rw [← h.2]
    exact this

theorem parseInt_length (t i r : JSString) (h : parseInt t = some (i, r)) :
    r.length < t.length := by
  unfold parseInt at h
  split at h
  · simp at h
  · rename_i d rest
    split at h
    · simp only [Option.some.injEq, Prod.mk.injEq] at h
      rw [← h.2]; simp
    · split at h
      · have := span_snd_length_le isDigit rest
        split at h
        rename_i ds rest1 hs
        simp only [Option.some.injEq, Prod.mk.injEq] at h
        rw [hs] at this
        simp only at this
        rw [← h.2]
        simp only [List.length_cons]
        omega
      · simp at h

theorem parseFrac_length (t f r : JSString) (h : parseFrac t = some (f, r)) :
    r.length ≤ t.length := by
  unfold parseFrac at h
  split at h
  · rename_i rest
    split at h
    · rename_i ds rest1 hd
      simp only [Option.some.injEq, Prod.mk.injEq] at h
      have := parseDigits_length _ _ _ hd
      rw [← h.2]
      simp only [List.length_cons]
      omega
    · simp at h
  · simp only [Option.some.injEq, Prod.mk.injEq] at h
    rw [← h.2]

theorem parseExp_length (t e r : JSString) (h : parseExp t = some (e, r)) :
    r.length ≤ t.length := by
  unfold parseExp at h
  split at h
  · simp only [Option.some.injEq, Prod.mk.injEq] at h
    rw [← h.2]
  · rename_i c rest
    split at h
    · split at h
      · simp at h
      · rename_i s rest1
        split at h
        · split at h
          · rename_i ds rest2 hd
            simp only [Option.some.injEq, Prod.mk.injEq] at h
            have := parseDigits_length _ _ _ hd
            rw [← h.2]
            simp only [List.length_cons]
            omega
          · simp at h
        · split at h
          · rename_i ds rest2 hd
            simp only [Option.some.injEq, Prod.mk.injEq] at h
            have := parseDigits_length _ _ _ hd
            rw [← h.2]
            simp only [List.length_cons] at this ⊢
            omega
          · simp at h
    · simp only [Option.some.injEq, Prod.mk.injEq] at h
      rw [← h.2]

theorem parseNumber_length (t l r : JSString) (h : parseNumber t = some (l, r)) :
    r.length < t.length := by
  unfold parseNumber at h
  have hs : (parseSign t).2.length ≤ t.length := by
    unfold parseSign
    split
    · simp
    · simp
  split at h
  · simp at h
  · rename_i i r1 hi
    split at h
    · simp at h
    · rename_i f r2 hf
      split at h
      · simp at h
      · rename_i e r3 he
        simp only [Option.some.injEq, Prod.mk.injEq] at h
        have h1 := parseInt_length _ _ _ hi
        have h2 := parseFrac_length _ _ _ hf
        have h3 := parseExp_length _ _ _ he
        rw [← h.2]
        omega

theorem parseKeyword_length (w t r : JSString) (hw : w ≠ []) (h : parseKeyword w t = some r) :
    r.length < t.length := by
  unfold parseKeyword at h
  split at h
  · rename_i hp
    simp only [Option.some.injEq] at h
    have := (List.isPrefixOf_iff_prefix.1 hp).length_le
    have hw2 : 0 < w.length := List.length_pos.2 hw
    rw [← h, List.length_drop]
    omega
  · simp at h

theorem parse_length (fuel : Nat) :
    (∀ inp v r, parseValue fuel inp = Except.ok (v, r) → r.length < inp.length) ∧
    (∀ inp vs r, parseElements fuel inp = Except.ok (vs, r) → r.length < inp.length) ∧
    (∀ inp ms r, parseMembers fuel inp = Except.ok (ms, r) → r.length < inp.length) := by
  induction fuel with
  | zero =>
    refine ⟨?_, ?_, ?_⟩ <;> intro inp v r h
    · simp [parseValue] at h
    · simp [parseElements] at h
    · simp [parseMembers] at h
  | succ fuel ih =>
    obtain ⟨ihV, ihE, ihM⟩ := ih
    refine ⟨?_, ?_, ?_⟩
    · intro inp v r h
      cases inp with
      | nil => simp [parseValue] at h
      | cons u rest =>
        rw [parseValue] at h
        have hws := skipWhitespace_length_le rest
        simp only [List.length_cons]
        split at h
        · split at h
          · rename_i s r2 hp
            simp only [Except.ok.injEq, Prod.mk.injEq] at h
            have := parseStringChars_length _ _ _ hp
            rw [← h.2]; omega
          · simp at h
        · split at h
          · split at h
            · rename_i r2 hw
              simp only [Except.ok.injEq, Prod.mk.injEq] at h
              rw [hw] at hws
              simp only [List.length_cons] at hws
              rw [← h.2]; omega
            · split at h
              · rename_i items r2 hp
                simp only [Except.ok.injEq, Prod.mk.injEq] at h
                have := ihE _ _ _ hp
                rw [← h.2]; omega
              · simp at h
          · split at h
            · split at h
              · rename_i r2 hw
                simp only [Except.ok.injEq, Prod.mk.injEq] at h
                rw [hw] at hws
                simp only [List.length_cons] at hws
                rw [← h.2]; omega
              · split at h
                · rename_i items r2 hp
                  simp only [Except.ok.injEq, Prod.mk.injEq] at h
                  have := ihM _ _ _ hp
                  rw [← h.2]; omega
                · simp at h
            · split at h
              · split at h
                · rename_i r2 hp
                  simp only [Except.ok.injEq, Prod.mk.injEq] at h
                  have := parseKeyword_length _ _ _ (by decide) hp
                  simp only [List.length_cons] at this
                  rw [← h.2]; omega
                · simp at h
              · split at h
                · split at h
                  · rename_i r2 hp
                    simp only [Except.ok.injEq, Prod.mk.injEq] at h
                    have := parseKeyword_length _ _ _ (by decide) hp
                    simp only [List.length_cons] at this
                    rw [← h.2]; omega
                  · simp at h
                · split at h
                  · split at h
                    · rename_i r2 hp
                      simp only [Except.ok.injEq, Prod.mk.injEq] at h
                      have := parseKeyword_length _ _ _ (by decide) hp
                      simp only [List.length_cons] at this
                      rw [← h.2]; omega
                    · simp at h
                  · split at h
                    · rename_i l r2 hp
                      simp only [Except.ok.injEq, Prod.mk.injEq] at h
                      have := parseNumber_length _ _ _ hp
                      simp only [List.length_cons] at this
                      rw [← h.2]; omega
                    · simp at h
    · intro inp vs r h
      rw [parseElements] at h
      have hws := skipWhitespace_length_le inp
      split at h
      · simp at h
      · rename_i v rest hv
        have h1 := ihV _ _ _ hv
        have hws2 := skipWhitespace_length_le rest
        split at h
        · simp at h
        · rename_i u rest1 hw
          rw [hw] at hws2
          simp only [List.length_cons] at hws2
          split at h
          · simp only [Except.ok.injEq, Prod.mk.injEq] at h
            rw [← h.2]; omega
          · split at h
            · split at h
              · rename_i vs2 r2 hp
                simp only [Except.ok.injEq, Prod.mk.injEq] at h
                have := ihE _ _ _ hp
                rw [← h.2]; omega
              · simp at h
            · simp at h
    · intro inp ms r h
      rw [parseMembers] at h
      have hws := skipWhitespace_length_le inp
      split at h
      · simp at h
      · rename_i q rest hq
        rw [hq] at hws
        simp only [List.length_cons] at hws
        split at h
        · split at h
          · simp at h
          · rename_i key rest1 hk
            have h1 := parseStringChars_length _ _ _ hk
            have hws1 := skipWhitespace_length_le rest1
            split at h
            · simp at h
            · rename_i colon rest2 hc
              rw [hc] at hws1
              simp only [List.length_cons] at hws1
              have hws2 := skipWhitespace_length_le rest2
              split at h
              · split at h
                · simp at h
                · rename_i v rest3 hv
                  have h3 := ihV _ _ _ hv
                  have hws3 := skipWhitespace_length_le rest3
                  split at h
                  · simp at h
                  · rename_i u rest4 hu
                    rw [hu] at hws3
                    simp only [List.length_cons] at hws3
                    split at h
                    · simp only [Except.ok.injEq, Prod.mk.injEq] at h
                      rw [← h.2]; omega
                    · split at h
                      · split at h
                        · rename_i ms2 r2 hp
                          simp only [Except.ok.injEq, Prod.mk.injEq] at h
                          have := ihM _ _ _ hp
                          rw [← h.2]; omega
                        · simp at h
                      · simp at h
              · simp at h
        · simp at h

theorem parse_fuel (fuel : Nat) :
    (∀ inp, 2 * inp.length + 1 ≤ fuel →
      parseValue fuel inp ≠ Except.error ParseError.outOfFuel) ∧
    (∀ inp, 2 * inp.length + 2 ≤ fuel →
      parseElements fuel inp ≠ Except.error ParseError.outOfFuel) ∧
    (∀ inp, 2 * inp.length + 2 ≤ fuel →
      parseMembers fuel inp ≠ Except.error ParseError.outOfFuel) := by
  induction fuel with
  | zero =>
    refine ⟨?_, ?_, ?_⟩ <;> intro inp hf <;> omega
  | succ fuel ih =>
    obtain ⟨ihV, ihE, ihM⟩ := ih
    refine ⟨?_, ?_, ?_⟩
    · intro inp hf h
      cases inp with
      | nil => simp [parseValue] at h
      | cons u rest =>
        rw [parseValue] at h
        simp only [List.length_cons] at hf
        split at h
        · split at h <;> simp at h
        · split at h
          · split at h
            · simp at h
            · split at h
              · simp at h
              · rename_i e he
                simp only [Except.error.injEq] at h
                rw [h] at he
                exact ihE rest (by omega) he
          · split at h
            · split at h
              · simp at h
              · split at h
                · simp at h
                · rename_i e he
                  simp only [Except.error.injEq] at h
                  rw [h] at he
                  exact ihM rest (by omega) he
            · split at h
              · split at h <;> simp at h
              · split at h
                · split at h <;> simp at h
                · split at h
                  · split at h <;> simp at h
                  · split at h <;> simp at h
    · intro inp hf h
      rw [parseElements] at h
      have hws := skipWhitespace_length_le inp
      split at h
      · rename_i e he
        simp only [Except.error.injEq] at h
        rw [h] at he
        exact ihV _ (by omega) he
      · rename_i v rest hv
        have h1 := (parse_length fuel).1 _ _ _ hv
        have hws2 := skipWhitespace_length_le rest
        split at h
        · simp at h
        · rename_i u rest1 hw
          rw [hw] at hws2
          simp only [List.length_cons] at hws2
          split at h
          · simp at h
          · split at h
            · split at h
              · simp at h
              · rename_i e he
                simp only [Except.error.injEq] at h
                rw [h] at he
                exact ihE _ (by omega) he
            · simp at h
    · intro inp hf h
      rw [parseMembers] at h
      have hws := skipWhitespace_length_le inp
      split at h
      · simp at h
      · rename_i q rest hq
        rw [hq] at hws
        simp only [List.length_cons] at hws
        split at h
        · split at h
          · simp at h
          · rename_i key rest1 hk
            have h1 := parseStringChars_length _ _ _ hk
            have hws1 := skipWhitespace_length_le rest1
            split at h
            · simp at h
            · rename_i colon rest2 hc
              rw [hc] at hws1
              simp only [List.length_cons] at hws1
              have hws2 := skipWhitespace_length_le rest2
              split at h
              · split at h
                · rename_i e he
                  simp only [Except.error.injEq] at h
                  rw [h] at he
                  exact ihV _ (by omega) he
                · rename_i v rest3 hv
                  have h3 := (parse_length fuel).1 _ _ _ hv
                  have hws3 := skipWhitespace_length_le rest3
                  split at h
                  · simp at h
                  · rename_i u rest4 hu
                    rw [hu] at hws3
                    simp only [List.length_cons] at hws3
                    split at h
                    · simp at h
                    · split at h
                      · split at h
                        · simp at h
                        · rename_i e he
                          simp only [Except.error.injEq] at h
                          rw [h] at he
                          exact ihM _ (by omega) he
                      · simp at h
              · simp at h
        · simp at h

/-- `JSON.parse` never stops for lack of fuel: on every text it returns a value or
reports a `SyntaxError`. -/
theorem JSON.parse_ne_outOfFuel (text : JSString) :
    JSON.parse text ≠ Except.error ParseError.outOfFuel := by
  intro h
  unfold JSON.parse at h
  have hws := skipWhitespace_length_le text
  split at h
  · rename_i e he
    simp only [Except.error.injEq] at h
    rw [h] at he
    exact (parse_fuel _).1 _ (by omega) he
  · split at h <;> simp at h

/-! ## The draft -/

theorem stringify_arr_ne_nil (h : Host) (items : List Value) :
    JSON.stringify h (Value.arr items) ≠ [] := by
  rw [JSON.stringify]
  exact List.cons_ne_nil _ _

theorem loadDraft_stringify_strings (h : Host) (S : List JSString) (current : List Value) :
    loadDraft (some (JSON.stringify h (Value.arr (S.map Value.str)))) current
      = S.map Value.str := by
  simp only [loadDraft, if_neg (stringify_arr_ne_nil h _), parse_stringify_strings]

/-- C4: the text `saveDraft` stores for a selection `S` of strings, read back by the
mount-time draft load, sets `selectedCodes` to `S`: same elements, same order (also for
the empty selection, and whatever the selection was before the load). -/
theorem draft_round_trip (h : Host) (S : List JSString) (st : AppState)
    (current : List Value) :
    (saveDraft h { st with selectedCodes := S.map Value.str }).localStorage.getItem
          LOCALSTORE_KEY
        = some (JSON.stringify h (Value.arr (S.map Value.str))) ∧
      loadDraft ((saveDraft h { st with selectedCodes := S.map Value.str }).localStorage.getItem
          LOCALSTORE_KEY) current = S.map Value.str ∧
      (loadDraftOnMount (initialState
          (saveDraft h { st with selectedCodes := S.map Value.str }).localStorage)).selectedCodes
        = S.map Value.str := by
  have hs : (saveDraft h { st with selectedCodes := S.map Value.str }).localStorage.getItem
      LOCALSTORE_KEY = some (JSON.stringify h (Value.arr (S.map Value.str))) := by
    simp [saveDraft, Storage.getItem, Storage.setItem]
  refine ⟨hs, ?_, ?_⟩
  · rw [hs, loadDraft_stringify_strings]
  · simp only [loadDraftOnMount, initialState]
    rw [hs, loadDraft_stringify_strings]

/-- C5 (as stated, refuted): the stored values `[1, 2]` and `[null]` are JSON arrays
whose elements are not strings, and the draft load replaces the empty selection by their
elements. -/
theorem load_installs_non_string_array :
    loadDraft (some (js "[1, 2]")) [] = [Value.num (js "1"), Value.num (js "2")] ∧
      loadDraft (some (js "[1, 2]")) [] ≠ [] ∧
      loadDraft (some (js "[null]")) [] = [Value.null] ∧
      loadDraft (some (js "[null]")) [] ≠ [] :=
  ⟨rfl, fun h => absurd (congrArg List.length h) (by decide), rfl,
    fun h => absurd (congrArg List.length h) (by decide)⟩

/-- C5 (amended): when nothing is stored, or the stored value is not the JSON text of an
array (it is empty, not JSON, or JSON of another kind of value), the draft load leaves
`selectedCodes` unchanged; when it is the JSON text of an array, the load replaces
`selectedCodes` by the elements of that array, whatever they are. -/
theorem load_unchanged_unless_array (raw : Option JSString) (current : List Value) :
    ((∀ text items, raw = some text → JSON.parse text ≠ Except.ok (Value.arr items)) →
        loadDraft raw current = current) ∧
      (∀ text items, raw = some text → JSON.parse text = Except.ok (Value.arr items) →
        loadDraft raw current = items) := by
  constructor
  · intro hna
    cases raw with
    | none => rfl
    | some text =>
      simp only [loadDraft]
      split
      · rfl
      · split
        · rename_i items hp
          exact absurd hp (hna text items rfl)
        · rfl
  · intro text items hr hp
    subst hr
    have hne : text ≠ [] := by
      intro he
      subst he
      have he2 : JSON.parse [] = Except.error ParseError.syntaxError := rfl
      rw [he2] at hp
      exact absurd hp (by simp)
    simp only [loadDraft, if_neg hne, hp]

theorem load_unchanged_unless_array_witness :
    loadDraft none [Value.str (js "CS101")] = [Value.str (js "CS101")] ∧
      loadDraft (some (js "not json")) [Value.str (js "CS101")] = [Value.str (js "CS101")] ∧
      loadDraft (some (js "\"CS102\"")) [Value.str (js "CS101")] = [Value.str (js "CS101")] ∧
      loadDraft (some (js "[\"CS102\"]")) [Value.str (js "CS101")] = [Value.str (js "CS102")] :=
  ⟨(load_unchanged_unless_array none [Value.str (js "CS101")]).1
      (fun _ _ hr => absurd hr (by simp)),
    (load_unchanged_unless_array (some (js "not json")) [Value.str (js "CS101")]).1
      (fun text items hr => by
        simp only [Option.some.injEq] at hr
        subst hr
        exact fun hp => absurd (show JSON.parse (js "not json")
          = Except.error ParseError.syntaxError from rfl) (by rw [hp]; simp)),
    (load_unchanged_unless_array (some (js "\"CS102\"")) [Value.str (js "CS101")]).1
      (fun text items hr => by
        simp only [Option.some.injEq] at hr
        subst hr
        exact fun hp => absurd (show JSON.parse (js "\"CS102\"")
          = Except.ok (Value.str (js "CS102")) from rfl) (by rw [hp]; simp)),
    (load_unchanged_unless_array (some (js "[\"CS102\"]")) [Value.str (js "CS101")]).2
      (js "[\"CS102\"]") [Value.str (js "CS102")] rfl rfl⟩

/-! ## Decimal numerals -/

theorem decimalDigits_shape (fuel : Nat) : ∀ n, n < fuel →
    ∃ d ds, decimalDigits fuel n = d :: ds ∧ isDigit d = true ∧
      (∀ x ∈ ds, isDigit x = true) ∧ (d = 48 → n = 0 ∧ ds = []) := by
  induction fuel with
  | zero => intro n hn; omega
  | succ fuel ih =>
    intro n hn
    rw [decimalDigits]
    by_cases h10 : n < 10
    · refine ⟨48 + n, [], by simp [h10], ?_, by simp, fun h0 => ⟨by omega, rfl⟩⟩
      simp only [isDigit, Bool.and_eq_true, decide_eq_true_eq]
      omega
    · obtain ⟨d, ds, he, hd, hds, h0⟩ := ih (n / 10) (by omega)
      refine ⟨d, ds ++ [48 + n % 10], by simp [h10, he], hd, ?_, ?_⟩
      · intro x hx
        rcases List.mem_append.1 hx with hx | hx
        · exact hds x hx
        · rw [List.mem_singleton] at hx
          subst hx
          simp only [isDigit, Bool.and_eq_true, decide_eq_true_eq]
          omega
      · intro hd0
        have := (h0 hd0).1
        omega

/-- The digits of `numberToString n` denote `n`. -/
theorem numberToString_value (n : Nat) :
    (numberToString n).foldl (fun acc d => 10 * acc + (d - 48)) 0 = n := by
  have key : ∀ fuel n, n < fuel →
      (decimalDigits fuel n).foldl (fun acc d => 10 * acc + (d - 48)) 0 = n := by
    intro fuel
    induction fuel with
    | zero => intro n hn; omega
    | succ fuel ih =>
      intro n hn
      rw [decimalDigits]
      by_cases h10 : n < 10
      · simp [h10]
      · simp only [h10, if_false, List.foldl_append, List.foldl_cons, List.foldl_nil,
          ih (n / 10) (by omega)]
        omega
  exact key (n + 1) n (Nat.lt_succ_self n)

theorem span_isDigit_append (ds t : JSString) (y : Nat) (hds : ∀ x ∈ ds, isDigit x = true)
    (hy : isDigit y = false) : (ds ++ y :: t).span isDigit = (ds, y :: t) := by
  rw [List.span_eq_take_drop, List.takeWhile_append_of_pos hds,
    List.dropWhile_append_of_pos hds, List.takeWhile_cons_of_neg (by simp [hy]),
    List.dropWhile_cons_of_neg (by simp [hy]), List.append_nil]

theorem parseNumber_numeral (n : Nat) (t : JSString) :
    parseNumber (numberToString n ++ 44 :: t) = some (numberToString n, 44 :: t) := by
  obtain ⟨d, ds, he, hd, hds, h0⟩ := decimalDigits_shape (n + 1) n (Nat.lt_succ_self n)
  have hd2 : 48 ≤ d ∧ d ≤ 57 := by
    simpa [isDigit] using hd
  have hsign : parseSign (d :: (ds ++ 44 :: t)) = ([], d :: (ds ++ 44 :: t)) := by
    unfold parseSign
    split
    · rename_i rest heq
      injection heq with h1 h2
      omega
    · rfl
  have hint : parseInt (d :: (ds ++ 44 :: t)) = some (d :: ds, 44 :: t) := by
    unfold parseInt
    by_cases h48 : d = 48
    · obtain ⟨_, hnil⟩ := h0 h48
      subst hnil
      subst h48
      simp
    · simp only [h48, if_false, hd, if_true, span_isDigit_append ds t 44 hds (by decide)]
  have hfrac : parseFrac (44 :: t) = some ([], 44 :: t) := by
    unfold parseFrac
    split
    · rename_i rest heq
      injection heq with h1 h2
      exact absurd h1 (by decide)
    · rfl
  have hexp : parseExp (44 :: t) = some ([], 44 :: t) := by
    simp [parseExp]
  unfold numberToString
  rw [he, List.cons_append]
  unfold parseNumber
  rw [hsign]
  simp only [hint, hfrac, hexp, List.nil_append, List.append_nil]

theorem parseValue_numeral (fuel n : Nat) (t : JSString) :
    parseValue (fuel + 1) (numberToString n ++ 44 :: t)
      = Except.ok (Value.num (numberToString n), 44 :: t) := by
  obtain ⟨d, ds, he, hd, _, _⟩ := decimalDigits_shape (n + 1) n (Nat.lt_succ_self n)
  have hd2 : 48 ≤ d ∧ d ≤ 57 := by
    simpa [isDigit] using hd
  have hn := parseNumber_numeral n t
  unfold numberToString at hn ⊢
  rw [he, List.cons_append] at hn ⊢
  rw [parseValue]
  simp only [show d ≠ 34 by omega, show d ≠ 91 by omega, show d ≠ 123 by omega,
    show d ≠ 116 by omega, show d ≠ 102 by omega, show d ≠ 110 by omega, if_false, hn]

theorem skipWhitespace_numeral (n : Nat) (t : JSString) :
    skipWhitespace (numberToString n ++ t) = numberToString n ++ t := by
  obtain ⟨d, ds, he, hd, _, _⟩ := decimalDigits_shape (n + 1) n (Nat.lt_succ_self n)
  have hd2 : 48 ≤ d ∧ d ≤ 57 := by
    simpa [isDigit] using hd
  unfold numberToString
  rw [he, List.cons_append]
  apply skipWhitespace_cons_of_not
  simp only [isWhitespace, Bool.or_eq_false_iff, beq_eq_false_iff_ne]
  omega

theorem parseValue_strings (h : Host) (S : List JSString) (fuel : Nat) (t : JSString)
    (hf : S.length + 2 ≤ fuel) :
    parseValue fuel (91 :: (JSON.stringifyItems h (S.map Value.str) ++ 93 :: t))
      = Except.ok (Value.arr (S.map Value.str), t) := by
  obtain ⟨f, rfl⟩ : ∃ f, fuel = f + 1 := ⟨fuel - 1, by omega⟩
  rw [parseValue]
  cases S with
  | nil =>
    simp [JSON.stringifyItems, skipWhitespace_cons_of_not 93 _ (by decide)]
  | cons s S =>
    have hq : skipWhitespace (JSON.stringifyItems h ((s :: S).map Value.str) ++ 93 :: t)
        = 34 :: (quoteChars s ++ [34] ++ (match S with
          | [] => []
          | _ :: _ => 44 :: JSON.stringifyItems h (S.map Value.str)) ++ 93 :: t) := by
      rw [stringifyItems_strings_cons, quote]
      simp only [List.cons_append, List.append_assoc]
      rw [skipWhitespace_cons_of_not 34 _ (by decide)]
    simp only [show (91 : Nat) ≠ 34 by decide, if_false, if_true, hq]
    rw [parseElements_strings h S s f t (by simp at hf ⊢; omega)]

theorem parseMembers_selection (h : Host) (S : List JSString) (fuel : Nat) (t : JSString)
    (hf : S.length + 3 ≤ fuel) :
    parseMembers fuel (34 :: (quoteChars (js "selection") ++ 34 :: 58 :: 91 ::
        (JSON.stringifyItems h (S.map Value.str) ++ 93 :: 125 :: t)))
      = Except.ok ([(js "selection", Value.arr (S.map Value.str))], t) := by
  obtain ⟨f, rfl⟩ : ∃ f, fuel = f + 1 := ⟨fuel - 1, by omega⟩
  rw [parseMembers, skipWhitespace_cons_of_not 34 _ (by decide)]
  simp only [if_true, parseStringChars_quoteChars, skipWhitespace_cons_of_not 58 _ (by decide),
    skipWhitespace_cons_of_not 91 _ (by decide)]
  rw [parseValue_strings h S f (125 :: t) (by omega)]
  simp [skipWhitespace_cons_of_not 125 _ (by decide)]

theorem parseMembers_snapshot (h : Host) (now : Nat) (S : List JSString) (fuel : Nat)
    (t : JSString) (hf : S.length + 4 ≤ fuel) :
    parseMembers fuel (34 :: (quoteChars (js "ts") ++ 34 :: 58 :: (numberToString now ++
        44 :: 34 :: (quoteChars (js "selection") ++ 34 :: 58 :: 91 ::
          (JSON.stringifyItems h (S.map Value.str) ++ 93 :: 125 :: t)))))
      = Except.ok ([(js "ts", Value.num (numberToString now)),
          (js "selection", Value.arr (S.map Value.str))], t) := by
  obtain ⟨f, rfl⟩ : ∃ f, fuel = f + 2 := ⟨fuel - 2, by omega⟩
  rw [parseMembers, skipWhitespace_cons_of_not 34 _ (by decide)]
  simp only [if_true, parseStringChars_quoteChars, skipWhitespace_cons_of_not 58 _ (by decide),
    skipWhitespace_numeral, parseValue_numeral, skipWhitespace_cons_of_not 44 _ (by decide)]
  rw [parseMembers_selection h S (f + 1) t (by omega)]
  simp

/-- Parsing the snapshot text written for a selection of strings gives back an object
with the fields `ts` and `selection`, the latter being the selection. -/
theorem parse_snapshot_strings (h : Host) (now : Nat) (S : List JSString) :
    JSON.parse (snapshotText h now (S.map Value.str))
      = Except.ok (Value.obj [(js "ts", Value.num (numberToString now)),
          (js "selection", Value.arr (S.map Value.str))]) := by
  have hl := length_stringifyItems_strings h S
  have hts : js "\"ts\":" = 34 :: (quoteChars (js "ts") ++ 34 :: [58]) := by decide
  have hsel : js ",\"selection\":" = 44 :: 34 :: (quoteChars (js "selection") ++ 34 :: [58]) := by
    decide
  have hshape : snapshotText h now (S.map Value.str)
      = 123 :: 34 :: (quoteChars (js "ts") ++ 34 :: 58 :: (numberToString now ++
        44 :: 34 :: (quoteChars (js "selection") ++ 34 :: 58 :: 91 ::
          (JSON.stringifyItems h (S.map Value.str) ++ 93 :: 125 :: [])))) := by
    unfold snapshotText
    rw [stringify_strings, hts, hsel]
    simp only [List.cons_append, List.append_assoc, List.nil_append]
  have hlen : S.length + 5 ≤ 2 * (snapshotText h now (S.map Value.str)).length := by
    rw [hshape]
    simp only [List.length_cons, List.length_append]
    omega
  unfold JSON.parse
  obtain ⟨f, hfe⟩ : ∃ f, 2 * (snapshotText h now (S.map Value.str)).length = f + 1 :=
    ⟨2 * (snapshotText h now (S.map Value.str)).length - 1, by omega⟩
  rw [hfe, hshape, skipWhitespace_cons_of_not 123 _ (by decide), parseValue]
  simp only [show (123 : Nat) ≠ 34 by decide, show (123 : Nat) ≠ 91 by decide, if_false,
    if_true, skipWhitespace_cons_of_not 34 _ (by decide)]
  rw [parseMembers_snapshot h now S (f + 1) [] (by omega)]
  simp [skipWhitespace]

/-! ## Frame of `submitSelection` -/

theorem submitted_key_ne : SUBMITTED_KEY ≠ LOCALSTORE_KEY := by decide

theorem submitSelection_selectedCodes (h : Host) (now : Nat) (st : AppState) :
    (submitSelection h now st).selectedCodes = st.selectedCodes := by
  unfold submitSelection
  simp only
  split <;> rfl

theorem submitSelection_storage_rejected (h : Host) (now : Nat) (st : AppState)
    (hr : ¬ (16 ≤ totalCredits st.selectedCodes ∧ totalCredits st.selectedCodes ≤ 27)) :
    (submitSelection h now st).localStorage = st.localStorage := by
  have hne : submitErrors (totalCredits st.selectedCodes) ≠ [] :=
    fun he => hr ((submitErrors_eq_nil_iff _).1 he)
  have hl : (submitErrors (totalCredits st.selectedCodes)).length ≠ 0 :=
    fun he => hne (List.length_eq_zero.1 he)
  simp only [submitSelection, if_pos hl]

theorem submitSelection_storage_accepted (h : Host) (now : Nat) (st : AppState)
    (hr : 16 ≤ totalCredits st.selectedCodes ∧ totalCredits st.selectedCodes ≤ 27) :
    (submitSelection h now st).localStorage
      = st.localStorage.setItem SUBMITTED_KEY (snapshotText h now st.selectedCodes) := by
  simp [submitSelection, submitErrors_valid _ hr.1 hr.2]

/-! ## The selection invariant -/

theorem getCourse_code_isSome (c : Course) (hc : c ∈ CATALOG) :
    (getCourse (Value.str c.code)).isSome = true := by
  unfold getCourse
  rw [List.find?_isSome]
  exact ⟨c, hc, by simp [Value.isString]⟩

theorem toggleCourse_valid (c : Course) (hc : c ∈ CATALOG) (sel : List Value)
    (hv : ValidSelection sel) : ValidSelection (toggleCourse c.code sel) := by
  refine ⟨toggleCourse_nodup c.code sel hv.1, ?_⟩
  intro v hm
  unfold toggleCourse at hm
  split at hm
  · exact hv.2 v (List.mem_filter.1 hm).1
  · rcases List.mem_append.1 hm with hm | hm
    · exact hv.2 v hm
    · rw [List.mem_singleton] at hm
      rw [hm]
      exact getCourse_code_isSome c hc

theorem validSelection_nil : ValidSelection [] :=
  ⟨List.nodup_nil, fun _ hm => absurd hm (List.not_mem_nil _)⟩

theorem loadDraft_valid (raw : Option JSString) (ha : AdmissibleDraft raw) :
    ValidSelection (loadDraft raw []) := by
  cases raw with
  | none => exact validSelection_nil
  | some text =>
    simp only [loadDraft]
    split
    · exact validSelection_nil
    · split
      · rename_i items hp
        exact ha text items rfl hp
      · exact validSelection_nil

theorem validSelection_strings (sel : List Value) (hv : ValidSelection sel) :
    sel = (sel.filterMap Value.string?).map Value.str := by
  induction sel with
  | nil => rfl
  | cons v vs ih =>
    have hvs : ValidSelection vs :=
      ⟨(List.nodup_cons.1 hv.1).2, fun w hw => hv.2 w (List.mem_cons_of_mem v hw)⟩
    have h1 := hv.2 v (List.mem_cons_self v vs)
    rw [Option.isSome_iff_exists] at h1
    obtain ⟨c, hc⟩ := h1
    have h2 := (getCourse_some v c hc).2
    subst h2
    simp only [List.filterMap_cons, Value.string?, List.map_cons]
    rw [← ih hvs]

/-- The text `saveDraft` writes for a valid selection is an admissible draft. -/
theorem saved_draft_admissible (h : Host) (sel : List Value) (hv : ValidSelection sel) :
    AdmissibleDraft (some (JSON.stringify h (Value.arr sel))) := by
  intro text items hr hp
  simp only [Option.some.injEq] at hr
  subst hr
  rw [validSelection_strings sel hv, parse_stringify_strings] at hp
  simp only [Except.ok.injEq, Value.arr.injEq] at hp
  rw [← hp, ← validSelection_strings sel hv]
  exact hv

theorem reachableFromAdmissible_valid (st : AppState) (hr : ReachableFromAdmissible st) :
    ValidSelection st.selectedCodes := by
  induction hr with
  | mount store ha => exact loadDraft_valid _ ha
  | toggle c st hc _ ih => exact toggleCourse_valid c hc st.selectedCodes ih
  | clear st _ _ => exact validSelection_nil

/-- From an admissible draft the "Selected" list always renders. -/
theorem reachableFromAdmissible_renders (st : AppState) (hr : ReachableFromAdmissible st) :
    ∃ items, renderSelectedList st.selectedCodes = Except.ok items :=
  (renderSelectedList_ok_iff st.selectedCodes).2 (reachableFromAdmissible_valid st hr).2

/-- C8 (as stated, refuted): the mount-time load of the stored value
`["CS101","CS101"]` reaches a selection with a duplicate, and the load of `["XX999"]`
reaches a selection with a code that has no catalog record. -/
theorem reachable_selection_not_valid :
    Reachable (loadDraftOnMount (initialState (draftStore (js "[\"CS101\",\"CS101\"]")))) ∧
      (loadDraftOnMount (initialState (draftStore (js "[\"CS101\",\"CS101\"]")))).selectedCodes
        = [Value.str (js "CS101"), Value.str (js "CS101")] ∧
      ¬ [Value.str (js "CS101"), Value.str (js "CS101")].Nodup ∧
      Reachable (loadDraftOnMount (initialState (draftStore (js "[\"XX999\"]")))) ∧
      (loadDraftOnMount (initialState (draftStore (js "[\"XX999\"]")))).selectedCodes
        = [Value.str (js "XX999")] ∧
      getCourse (Value.str (js "XX999")) = none :=
  ⟨Reachable.mount _, rfl, by simp, Reachable.mount _, rfl, by decide⟩

/-- C8 (amended): when the draft value read at mount is admissible (nothing stored, a
value the load ignores, or the JSON text of a duplicate-free array of catalog codes, such
as the text `saveDraft` writes for a valid selection), every state reached by the
mount-time draft load, `toggleCourse` on codes of catalog records and `clearDraft` has a
selection that is duplicate-free and contains only codes that have a catalog record. -/
theorem reachable_selection_valid (st : AppState) (hr : ReachableFromAdmissible st) :
    st.selectedCodes.Nodup ∧ ∀ v ∈ st.selectedCodes, (getCourse v).isSome = true := by
  induction hr with
  | mount store ha =>
    exact loadDraft_valid (store.getItem LOCALSTORE_KEY) ha
  | toggle c st hc _ ih =>
    exact toggleCourse_valid c hc st.selectedCodes ih
  | clear st _ _ =>
    exact validSelection_nil

theorem reachable_selection_valid_witness :
    (AppState.toggle (js "CS102") (loadDraftOnMount (initialState
        (saveDraft ⟨id, fun _ => [], id⟩
          (AppState.toggle (js "CS101") (initialState (fun _ => none)))).localStorage))
      ).selectedCodes.Nodup ∧
    ∀ v ∈ (AppState.toggle (js "CS102") (loadDraftOnMount (initialState
        (saveDraft ⟨id, fun _ => [], id⟩
          (AppState.toggle (js "CS101") (initialState (fun _ => none)))).localStorage))
      ).selectedCodes, (getCourse v).isSome = true :=
  reachable_selection_valid _
    (ReachableFromAdmissible.toggle
      { code := js "CS102", title := js "Data Structures", credits := 4, domain := js "Core" }
      _ (by decide)
      (ReachableFromAdmissible.mount _
        (saved_draft_admissible _ [Value.str (js "CS101")]
          ⟨List.Nodup.of_map Value.string? (by decide), by decide⟩)))

/-- C7: `submitSelection` never changes `selectedCodes` nor the draft stored under
`course_reg_draft_v1`.  When it rejects (total outside 16..27) the storage is unchanged;
when it accepts, the storage changes by one write, under the distinct key
`course_reg_draft_v1_submitted`, of the text of the object `{ ts, selection }` whose
`selection` field is the serialisation of the current `selectedCodes`; for a selection of
strings, parsing that text gives the selection back in the field `selection`. -/
theorem submit_keeps_selection_and_draft (h : Host) (now : Nat) (st : AppState) :
    (submitSelection h now st).selectedCodes = st.selectedCodes ∧
      (submitSelection h now st).localStorage.getItem LOCALSTORE_KEY
        = st.localStorage.getItem LOCALSTORE_KEY ∧
      SUBMITTED_KEY = js "course_reg_draft_v1_submitted" ∧
      LOCALSTORE_KEY = js "course_reg_draft_v1" ∧
      SUBMITTED_KEY ≠ LOCALSTORE_KEY ∧
      (¬ (16 ≤ totalCredits st.selectedCodes ∧ totalCredits st.selectedCodes ≤ 27) →
        (submitSelection h now st).localStorage = st.localStorage) ∧
      (16 ≤ totalCredits st.selectedCodes ∧ totalCredits st.selectedCodes ≤ 27 →
        (submitSelection h now st).localStorage
            = st.localStorage.setItem SUBMITTED_KEY
                (123 :: (js "\"ts\":" ++ numberToString now ++ js ",\"selection\":" ++
                  JSON.stringify h (Value.arr st.selectedCodes) ++ [125])) ∧
          (∀ key, key ≠ SUBMITTED_KEY →
            (submitSelection h now st).localStorage.getItem key
              = st.localStorage.getItem key)) ∧
      (∀ S : List JSString,
        JSON.parse (123 :: (js "\"ts\":" ++ numberToString now ++ js ",\"selection\":" ++
            JSON.stringify h (Value.arr (S.map Value.str)) ++ [125]))
          = Except.ok (Value.obj [(js "ts", Value.num (numberToString now)),
              (js "selection", Value.arr (S.map Value.str))])) := by
  refine ⟨submitSelection_selectedCodes h now st, ?_, by decide, by decide, submitted_key_ne,
    submitSelection_storage_rejected h now st, ?_, parse_snapshot_strings h now⟩
  · by_cases hr : 16 ≤ totalCredits st.selectedCodes ∧ totalCredits st.selectedCodes ≤ 27
    · rw [submitSelection_storage_accepted h now st hr]
      simp [Storage.getItem, Storage.setItem, submitted_key_ne.symm]
    · rw [submitSelection_storage_rejected h now st hr]
  · intro hr
    rw [submitSelection_storage_accepted h now st hr]
    refine ⟨rfl, ?_⟩
    intro key hk
    simp [Storage.getItem, Storage.setItem, hk]

set_option maxRecDepth 100000 in
theorem submit_keeps_selection_and_draft_witness :
    (submitSelection ⟨id, fun _ => [], id⟩ 1700000000000
        { initialState (draftStore (js "[\"IS701\"]")) with
          selectedCodes := [Value.str (js "CS101"), Value.str (js "CS102"),
            Value.str (js "CS103"), Value.str (js "CS104"), Value.str (js "CS105")] }
      ).localStorage.getItem SUBMITTED_KEY
      = some (js ("\x7b\"ts\":1700000000000,\"selection\":" ++
          "[\"CS101\",\"CS102\",\"CS103\",\"CS104\",\"CS105\"]\x7d")) ∧
    (submitSelection ⟨id, fun _ => [], id⟩ 1700000000000
        { initialState (draftStore (js "[\"IS701\"]")) with
          selectedCodes := [Value.str (js "CS101"), Value.str (js "CS102"),
            Value.str (js "CS103"), Value.str (js "CS104"), Value.str (js "CS105")] }
      ).localStorage.getItem LOCALSTORE_KEY = some (js "[\"IS701\"]") ∧
    (submitSelection ⟨id, fun _ => [], id⟩ 1700000000000
        { initialState (draftStore (js "[\"IS701\"]")) with
          selectedCodes := [Value.str (js "IS701")] }).localStorage
      = draftStore (js "[\"IS701\"]") := by
  refine ⟨?_, ?_, ?_⟩
  · rw [((submit_keeps_selection_and_draft _ _ _).2.2.2.2.2.2.1 (by decide)).1]
    decide
  · rw [(submit_keeps_selection_and_draft _ _ _).2.1]
    decide
  · exact (submit_keeps_selection_and_draft _ _ _).2.2.2.2.2.1 (by decide)

end CourseReg
